import Mathlib

/-! # Task tracker (`taskTracker/main.go`)

A shallow embedding of the command-line task tracker and theorems about its
repository operations (`createTask`, `updateTask`, `updateTaskProgres`,
`deleteTask`) and its load / operate / save session (`main`).

Conventions of the embedding:

* Go's `int` is the 64-bit signed integer; ids are `Int` and the one arithmetic
  operation of the program, `task.ID + 1`, wraps (`wrapInt64`).
* A function that mutates `*TaskList` and returns an `error` becomes a function
  returning the new `TaskList` together with `Option TaskError`.
* `time.Now().UTC()` is the parameter `now`.
* `strings.ToLower` is `ToLower`; the non-ASCII part of the Unicode case table is
  the parameter `caseTable`.
* `encoding/json` is the parameter `json : JSON`; the files, the record of
  completed writes and the two output streams are held in `World`.
* A nil `Tasks` slice and an empty one are the same collection; what the session
  loads and saves is a `Stored`, which records in addition whether the slice is
  nil.
-/

set_option autoImplicit false

namespace TaskTracker

/-! ## Data model -/

/-- A `time.Time` value in UTC, as nanoseconds since Go's zero instant. -/
structure Time where
  nsec : Int
  deriving DecidableEq, Repr

/-- The zero value of `time.Time`; an `UpdatedAt` holding it is "absent". -/
def Time.zero : Time := ⟨0⟩

/-- Go's `Task` struct. -/
structure Task where
  ID : Int
  Description : String
  Status : String
  CreatedAt : Time
  UpdatedAt : Time
  deriving DecidableEq, Repr

/-- Go's `TaskList` struct. -/
structure TaskList where
  Tasks : List Task
  deriving DecidableEq, Repr

/-- Two's-complement wrap-around of a result of 64-bit `int` arithmetic. -/
def wrapInt64 (x : Int) : Int := (x + 2 ^ 63) % 2 ^ 64 - 2 ^ 63

/-- Largest value of Go's `int`. -/
def maxInt64 : Int := 2 ^ 63 - 1

/-- Smallest value of Go's `int`. -/
def minInt64 : Int := -(2 ^ 63)

/-- A value representable in Go's `int`. -/
def isInt64 (x : Int) : Prop := minInt64 ≤ x ∧ x ≤ maxInt64

instance (x : Int) : Decidable (isInt64 x) := by
  unfold isInt64; exact inferInstance

/-! ## `strings.ToLower` -/

/-- Go's `unicode.ToLower`: ASCII is handled inline, every other rune goes
through the case table of the `unicode` package (`caseTable`). -/
def unicodeToLower (caseTable : Char → Char) (r : Char) : Char :=
  if r.toNat ≤ 127 then
    if 'A'.toNat ≤ r.toNat ∧ r.toNat ≤ 'Z'.toNat then Char.ofNat (r.toNat + 32) else r
  else caseTable r

/-- Go's `strings.ToLower` on a valid UTF-8 string: every rune is mapped by
`unicode.ToLower`. -/
def ToLower (caseTable : Char → Char) (s : String) : String :=
  ⟨s.data.map (unicodeToLower caseTable)⟩

/-! ## Errors of the repository operations -/

/-- The errors built with `fmt.Errorf` in the repository operations. -/
inductive TaskError where
  | emptyDescription
  | notFound (id : Int)
  | invalidTransition (status : String) (target : String)
  | unknownCommand (command : String)
  deriving DecidableEq, Repr

/-- The text of an error, as formatted by `fmt.Errorf`. -/
def TaskError.message : TaskError → String
  | .emptyDescription => "task description cannot be empty"
  | .notFound id => "no task found with id: " ++ toString id
  | .invalidTransition status target =>
      "cannot mark task with status " ++ status ++ " to " ++ target
  | .unknownCommand command => "unknown command: " ++ command

/-! ## Repository operations -/

/-- Result of `createTask`: the collection, the returned id (the named result
`id`, zero when nothing was created) and the lines printed. -/
structure CreateResult where
  taskList : TaskList
  id : Int
  stdout : List String
  deriving DecidableEq, Repr

/-- Go's `createTask`. -/
def createTask (now : Time) (taskList : TaskList) (description : String) : CreateResult :=
  if description = "" then
    ⟨taskList, 0, ["task description cannot be empty"]⟩
  else
    match taskList.Tasks.getLast? with
    | none =>
      let newTask : Task :=
        { ID := 1, Description := description, Status := "TODO",
          CreatedAt := now, UpdatedAt := Time.zero }
      ⟨⟨taskList.Tasks ++ [newTask]⟩, newTask.ID, []⟩
    | some task =>
      let newTask : Task :=
        { ID := wrapInt64 (task.ID + 1), Description := description, Status := "TODO",
          CreatedAt := now, UpdatedAt := Time.zero }
      ⟨⟨taskList.Tasks ++ [newTask]⟩, newTask.ID, []⟩

/-- The loop of `updateTask`: `none` when the scan ends without a match. -/
def updateTaskLoop (now : Time) (id : Int) (description : String) :
    List Task → Option (List Task)
  | [] => none
  | t :: rest =>
    if t.ID = id then
      some ({ t with Description := description, UpdatedAt := now } :: rest)
    else
      (updateTaskLoop now id description rest).map (fun r => t :: r)

/-- Go's `updateTask`. -/
def updateTask (now : Time) (taskList : TaskList) (id : Int) (description : String) :
    TaskList × Option TaskError :=
  if description = "" then
    (taskList, some .emptyDescription)
  else
    match updateTaskLoop now id description taskList.Tasks with
    | some tasks => (⟨tasks⟩, none)
    | none => (taskList, some (.notFound id))

/-- The body of the loop of `updateTaskProgres` at a task whose id matches:
the `switch command` statement. -/
def progresSwitch (caseTable : Char → Char) (now : Time) (command : String) (t : Task) :
    Task × Option TaskError :=
  let status := ToLower caseTable t.Status
  if command = "mark-in-progress" then
    if status = "todo" then
      ({ t with Status := "in-progress", UpdatedAt := now }, none)
    else
      (t, some (.invalidTransition status "in-progress"))
  else if command = "mark-done" then
    if status = "todo" ∨ status = "in-progress" then
      ({ t with Status := "done", UpdatedAt := now }, none)
    else
      (t, some (.invalidTransition status "done"))
  else
    (t, some (.unknownCommand command))

/-- The loop of `updateTaskProgres`: `none` when the scan ends without a match. -/
def updateTaskProgresLoop (caseTable : Char → Char) (now : Time) (id : Int)
    (command : String) : List Task → Option (List Task × Option TaskError)
  | [] => none
  | t :: rest =>
    if t.ID = id then
      let r := progresSwitch caseTable now command t
      some (r.1 :: rest, r.2)
    else
      (updateTaskProgresLoop caseTable now id command rest).map (fun r => (t :: r.1, r.2))

/-- Go's `updateTaskProgres`. -/
def updateTaskProgres (caseTable : Char → Char) (now : Time) (taskList : TaskList)
    (id : Int) (command : String) : TaskList × Option TaskError :=
  match updateTaskProgresLoop caseTable now id command taskList.Tasks with
  | some r => (⟨r.1⟩, r.2)
  | none => (taskList, some (.notFound id))

/-- The loop of `deleteTask`: the slice without the first task whose id
matches, `none` when the scan ends without a match. -/
def deleteTaskLoop (id : Int) : List Task → Option (List Task)
  | [] => none
  | t :: rest =>
    if t.ID = id then some rest
    else (deleteTaskLoop id rest).map (fun r => t :: r)

/-- Go's `deleteTask`. -/
def deleteTask (taskList : TaskList) (id : Int) : TaskList × Option TaskError :=
  match deleteTaskLoop id taskList.Tasks with
  | some tasks => (⟨tasks⟩, none)
  | none => (taskList, some (.notFound id))

/-! ## `strconv.Atoi` -/

/-- The two error kinds of `strconv` (`ErrSyntax`, `ErrRange`). -/
inductive NumError where
  | ErrSyntax
  | ErrRange
  deriving DecidableEq, Repr

/-- Largest `uint64`, the `maxVal` of `strconv.ParseUint(s, 10, 64)`. -/
def maxUint64 : Nat := 2 ^ 64 - 1

/-- The digit loop of `strconv.ParseUint(s, 10, 64)`: a byte that is not a
decimal digit is a syntax error, an overflow is a range error with `maxVal`. -/
def parseUintLoop : List Char → Nat → Nat × Option NumError
  | [], n => (n, none)
  | c :: cs, n =>
    if '0'.toNat ≤ c.toNat ∧ c.toNat ≤ '9'.toNat then
      if n ≥ maxUint64 / 10 + 1 then (maxUint64, some .ErrRange)
      else
        let n1 := n * 10 + (c.toNat - '0'.toNat)
        if n1 > maxUint64 then (maxUint64, some .ErrRange)
        else parseUintLoop cs n1
    else (0, some .ErrSyntax)

/-- Go's `strconv.Atoi` for a 64-bit `int`: an optional sign followed by decimal
digits. On a syntax error the value is 0, on a range error it is the nearest
representable `int`. -/
def Atoi (s : String) : Int × Option NumError :=
  match s.data with
  | [] => (0, some .ErrSyntax)
  | c :: cs =>
    let neg : Bool := c = '-'
    let digits := if c = '+' ∨ c = '-' then cs else c :: cs
    match digits with
    | [] => (0, some .ErrSyntax)
    | d :: ds =>
      let r := parseUintLoop (d :: ds) 0
      if r.2 = some .ErrSyntax then (0, some .ErrSyntax)
      else if neg = false ∧ r.1 ≥ 2 ^ 63 then (maxInt64, some .ErrRange)
      else if neg = true ∧ r.1 > 2 ^ 63 then (minInt64, some .ErrRange)
      else (if neg then -(r.1 : Int) else (r.1 : Int), none)

/-! ## The outside world: `encoding/json`, the file system, the two output streams -/

/-- An `error` value of the session. -/
inductive Failure where
  | task (e : TaskError)
  | atoi (arg : String) (e : NumError)
  | os (msg : String)
  | json (msg : String)
  | wrapped (context : String) (cause : Failure)
  deriving DecidableEq, Repr

/-- One item written to standard output or to the logger. -/
inductive Printed where
  | text (s : String)
  | failed (msg : String) (err : Failure)
  deriving DecidableEq, Repr

/-- A value of Go's `TaskList` as the session and `encoding/json` hold it: the
collection, and whether its `Tasks` slice is nil. A nil slice and an empty slice
hold the same (no) tasks and behave alike under `len`, `range` and `append`, so
the repository operations work on the collection alone; they differ in their
encoding, which is `null` for nil and `[]` for empty. The zero value of
`TaskList` is `⟨⟨[]⟩, true⟩`, and `TaskList{Tasks: []Task{}}` is `⟨⟨[]⟩, false⟩`. -/
structure Stored where
  taskList : TaskList
  nilTasks : Bool
  deriving DecidableEq, Repr

/-- The three calls into `encoding/json` the program makes.
`Unmarshal data` is `json.Unmarshal(data, &taskList)` on a zero `taskList`: the
value left in `taskList` and the error, if any. -/
structure JSON where
  MarshalIndent : Stored → Except String String
  MarshalTask : Task → Except String String
  Unmarshal : String → Stored × Option String

/-- The state outside the process: the files by name, whether the directory
refuses writes, the data of every completed `os.WriteFile` in order, and what
was printed and logged. -/
structure World where
  files : String → Option String
  readOnly : Bool
  writes : List (String × String)
  stdout : List Printed
  stderr : List Printed

/-- Go's `os.ReadFile`. -/
def osReadFile (filename : String) (w : World) : Except String String :=
  match w.files filename with
  | some data => .ok data
  | none => .error ("open " ++ filename ++ ": no such file or directory")

/-- Go's `os.WriteFile(filename, data, 0644)`. -/
def osWriteFile (filename : String) (data : String) (w : World) : World × Option String :=
  if w.readOnly then
    (w, some ("open " ++ filename ++ ": permission denied"))
  else
    ({ w with
        files := fun f => if f = filename then some data else w.files f,
        writes := w.writes ++ [(filename, data)] }, none)

/-- Go's `fmt.Println` of one string. -/
def println (s : String) (w : World) : World :=
  { w with stdout := w.stdout ++ [.text s] }

/-! ## Store codec and session -/

/-- Go's `check`: a non-nil error is logged, and execution continues. -/
def check (err : Option Failure) (msg : String) (w : World) : World :=
  match err with
  | some e => { w with stderr := w.stderr ++ [.failed msg e] }
  | none => w

/-- Go's `initializeTaskFile`. -/
def initializeTaskFile (json : JSON) (filename : String) (w : World) :
    World × Option Failure :=
  match json.MarshalIndent ⟨⟨[]⟩, false⟩ with
  | .error e => (w, some (.wrapped "error marshaling empty task list" (.json e)))
  | .ok data =>
    match osWriteFile filename data w with
    | (w1, some e) => (w1, some (.wrapped "error writing initial task file" (.os e)))
    | (w1, none) => (w1, none)

/-- Go's `loadTasks`. On a read error it returns the zero `taskList`, whose
`Tasks` is nil; for an empty file it returns `TaskList{Tasks: []Task{}}`. -/
def loadTasks (json : JSON) (filename : String) (w : World) : Stored × Option Failure :=
  match osReadFile filename w with
  | .error e => (⟨⟨[]⟩, true⟩, some (.wrapped "error reading file" (.os e)))
  | .ok data =>
    if data = "" then (⟨⟨[]⟩, false⟩, none)
    else
      match json.Unmarshal data with
      | (taskList, some e) => (taskList, some (.wrapped "error decoding JSON" (.json e)))
      | (taskList, none) => (taskList, none)

/-- Go's `FILENAME`. -/
def FILENAME : String := "task.json"

/-- Go's `saveTasks`. -/
def saveTasks (json : JSON) (filename : String) (taskList : Stored) (w : World) :
    World × Option Failure :=
  match json.MarshalIndent taskList with
  | .error e => (w, some (.wrapped "error marshaling task list" (.json e)))
  | .ok data =>
    match osWriteFile filename data w with
    | (w1, some e) => (w1, some (.wrapped "error writing tasks to file" (.os e)))
    | (w1, none) => (w1, none)

/-- The loop of `listByStatus`: prints every task whose lower-cased status
equals the lower-cased argument and reports whether one was found. -/
def listByStatusLoop (json : JSON) (caseTable : Char → Char) (status : String) :
    List Task → World → Bool → World × Bool
  | [], w, found => (w, found)
  | task :: rest, w, found =>
    if ToLower caseTable task.Status = ToLower caseTable status then
      match json.MarshalTask task with
      | .ok out =>
        listByStatusLoop json caseTable status rest (println out w) true
      | .error e =>
        listByStatusLoop json caseTable status rest
          (println "" (check (some (.json e)) "error marshalling task" w)) true
    else
      listByStatusLoop json caseTable status rest w found

/-- Go's `listByStatus`. -/
def listByStatus (json : JSON) (caseTable : Char → Char) (status : String) (w : World) :
    World :=
  let r := loadTasks json FILENAME w
  let w1 := check r.2 "failed load task" w
  let l := listByStatusLoop json caseTable status r.1.taskList.Tasks w1 false
  if l.2 then l.1 else println ("No tasks found with status " ++ status) l.1

/-- Go's `ensureFileExists`: `os.Stat` fails exactly when the file is missing. -/
def ensureFileExists (json : JSON) (w : World) : World × Option Failure :=
  match w.files FILENAME with
  | none => initializeTaskFile json FILENAME w
  | some _ => (w, none)

/-- The loop of the `list` command without a status: prints every task. -/
def listAllLoop (json : JSON) : List Task → World → World
  | [], w => w
  | task :: rest, w =>
    match json.MarshalTask task with
    | .ok out => listAllLoop json rest (println out w)
    | .error e =>
      listAllLoop json rest (println "" (check (some (.json e)) "error marshalling task" w))

/-- Lines 257-261 of `main` (`update`): the id is parsed, a parse error is
logged, and `updateTask` is called with whatever id `Atoi` returned. -/
def updateStep (now : Time) (arg2 arg3 : String) (taskList : TaskList) (w : World) :
    TaskList × World :=
  let p := Atoi arg2
  let w1 := check (p.2.map (Failure.atoi arg2)) "failed to parse id" w
  let r := updateTask now taskList p.1 arg3
  (r.1, check (r.2.map Failure.task) "failed to update task" w1)

/-- Lines 271-273 of `main` (`delete`): the error of `Atoi` is overwritten
unread, and `deleteTask` is called with whatever id `Atoi` returned. -/
def deleteStep (arg2 : String) (taskList : TaskList) (w : World) : TaskList × World :=
  let p := Atoi arg2
  let r := deleteTask taskList p.1
  (r.1, check (r.2.map Failure.task) "failed delete task" w)

/-- Lines 283-286 and 296-299 of `main` (`mark-in-progress`, `mark-done`): the
error of `Atoi` is overwritten unread, and `updateTaskProgres` is called with
whatever id `Atoi` returned and with the first argument as typed. -/
def markStep (caseTable : Char → Char) (now : Time) (arg1 arg2 : String)
    (taskList : TaskList) (w : World) : TaskList × World :=
  let p := Atoi arg2
  let r := updateTaskProgres caseTable now taskList p.1 arg1
  (r.1, check (r.2.map Failure.task) "failed mark status to in-progress" w)

/-- The `add` case of `main`; `rest` is `input[2:]`. The description is not
empty where `createTask` is called, so `createTask` appends, and the slice
`append` returns is not nil. -/
def mainAdd (json : JSON) (now : Time) (rest : List String) (w : World) : World × Nat :=
  match rest with
  | [] => (println "You dont provide description" w, 1)
  | description :: _ =>
    if description = "" then (println "description cannot be empty" w, 1)
    else
      match ensureFileExists json w with
      | (w1, some e) =>
        ({ w1 with stdout := w1.stdout ++ [.failed "Failed initialized file" e] }, 1)
      | (w1, none) =>
        let l := loadTasks json FILENAME w1
        let w2 := check l.2 "failed load task" w1
        let c := createTask now l.1.taskList description
        let w3 : World := { w2 with stdout := w2.stdout ++ c.stdout.map Printed.text }
        let s := saveTasks json FILENAME ⟨c.taskList, false⟩ w3
        let w4 := check s.2 "failed to save task to file" s.1
        (println (toString c.id) w4, 0)

/-- The `list` case of `main`. -/
def mainList (json : JSON) (caseTable : Char → Char) (rest : List String) (w : World) :
    World × Nat :=
  match rest with
  | [] =>
    let l := loadTasks json FILENAME w
    let w1 := check l.2 "failed load task" w
    (listAllLoop json l.1.taskList.Tasks w1, 0)
  | status :: _ => (listByStatus json caseTable status w, 0)

/-- The `update` case of `main`. `updateTask` assigns to elements of `Tasks`,
never to `Tasks` itself, so the slice is nil afterwards exactly if it was nil
when loaded. -/
def mainUpdate (json : JSON) (now : Time) (rest : List String) (w : World) : World × Nat :=
  match rest with
  | [] => (println "You dont give an id and description" w, 1)
  | [_] => (println "You dont provide description" w, 1)
  | arg2 :: arg3 :: _ =>
    let l := loadTasks json FILENAME w
    let w1 := check l.2 "failed load task" w
    let u := updateStep now arg2 arg3 l.1.taskList w1
    let s := saveTasks json FILENAME ⟨u.1, l.1.nilTasks⟩ u.2
    (check s.2 "failed to save task to file" s.1, 0)

/-- The `delete` case of `main`. `deleteTask` assigns to `Tasks` only once it
has found a task, which a nil slice does not hold, and then assigns the `append`
of two parts of a slice that is not nil; so the slice is nil afterwards exactly
if it was nil when loaded. -/
def mainDelete (json : JSON) (rest : List String) (w : World) : World × Nat :=
  match rest with
  | [] => (println "You dont provide id " w, 1)
  | arg2 :: _ =>
    let l := loadTasks json FILENAME w
    let w1 := check l.2 "failed load task" w
    let d := deleteStep arg2 l.1.taskList w1
    let s := saveTasks json FILENAME ⟨d.1, l.1.nilTasks⟩ d.2
    (check s.2 "failed to save task to file" s.1, 0)

/-- The `mark-in-progress` and `mark-done` cases of `main`, which have the same
text; `arg1` is `input[1]` as typed. `updateTaskProgres` assigns to elements of
`Tasks`, never to `Tasks` itself, so the slice is nil afterwards exactly if it
was nil when loaded. -/
def mainMark (json : JSON) (caseTable : Char → Char) (now : Time) (arg1 : String)
    (rest : List String) (w : World) : World × Nat :=
  match rest with
  | [] => (println "You dont provide id " w, 1)
  | arg2 :: _ =>
    let l := loadTasks json FILENAME w
    let w1 := check l.2 "failed load task" w
    let m := markStep caseTable now arg1 arg2 l.1.taskList w1
    let s := saveTasks json FILENAME ⟨m.1, l.1.nilTasks⟩ m.2
    (check s.2 "failed to save task to file" s.1, 0)

/-- The usage text of `main`. -/
def usage : List String :=
  ["Usage: tasklist <command>", "Commands:", "  add <task>", "  list",
   "  mark-in-progress <task id>", "  mark-done <task id>"]

/-- Go's `main`: `input` is `os.Args`, the result is the world afterwards and
the exit status. -/
def main (json : JSON) (caseTable : Char → Char) (now : Time) (input : List String)
    (w : World) : World × Nat :=
  match input with
  | [] => ({ w with stdout := w.stdout ++ usage.map Printed.text }, 0)
  | [_] => ({ w with stdout := w.stdout ++ usage.map Printed.text }, 0)
  | _ :: arg1 :: rest =>
    let command := ToLower caseTable arg1
    if command = "add" then mainAdd json now rest w
    else if command = "list" then mainList json caseTable rest w
    else if command = "update" then mainUpdate json now rest w
    else if command = "delete" then mainDelete json rest w
    else if command = "mark-in-progress" then mainMark json caseTable now arg1 rest w
    else if command = "mark-done" then mainMark json caseTable now arg1 rest w
    else (w, 0)

/-! ## Definitions used to state the specification -/

/-- The ids of a collection, in sequence order. -/
def ids (taskList : TaskList) : List Int := taskList.Tasks.map Task.ID

/-- All ids of the collection are pairwise distinct. -/
def idsUnique (taskList : TaskList) : Prop := (ids taskList).Nodup

instance (taskList : TaskList) : Decidable (idsUnique taskList) := by
  unfold idsUnique; exact inferInstance

/-- The largest id occurring in the collection, `none` when it is empty. -/
def maxID? (taskList : TaskList) : Option Int := (ids taskList).max?

/-- The id the specification assigns to a new task: "(max id in collection)+1
or 1 if collection empty". -/
def specNextID (taskList : TaskList) : Int :=
  match maxID? taskList with
  | none => 1
  | some m => m + 1

/-- The first task of the collection that carries the id: the task a linear
scan by id reaches. -/
def lookup (taskList : TaskList) (id : Int) : Option Task :=
  taskList.Tasks.find? (fun t => decide (t.ID = id))

/-- Two worlds agree on the file system: the same files with the same content,
the same write permission and the same record of completed writes. -/
def sameFileSystem (a b : World) : Prop :=
  a.files = b.files ∧ a.readOnly = b.readOnly ∧ a.writes = b.writes

/-- The document `json.MarshalIndent(taskList, "", "    ")` renders for a
collection without tasks. -/
def emptyDocument : String := "\x7b\n    \"tasks\": []\n\x7d"

/-- A document with one task that has id 0 and no other field. -/
def taskZeroDocument : String := "\x7b\"tasks\":[\x7b\"id\":0\x7d]\x7d"

/-- The task `json.Unmarshal` decodes from `taskZeroDocument`: id 0, every
other field at its zero value. -/
def taskZero : Task := ⟨0, "", "", Time.zero, Time.zero⟩

/-- The instant 2024-01-01T00:00:00Z: 63839664000 seconds after Go's zero
instant (62135596800 seconds up to 1970, then Unix time 1704067200). -/
def newYear2024 : Time := ⟨63839664000 * 10 ^ 9⟩

/-- The task `createTask` appends to an empty collection for the description `a`
at `newYear2024`. -/
def firstTask : Task := ⟨1, "a", "TODO", newYear2024, Time.zero⟩

/-- The document `json.MarshalIndent(taskList, "", "    ")` renders for the
collection that holds `firstTask` alone. -/
def firstTaskDocument : String :=
  "\x7b\n    \"tasks\": [\n        \x7b\n            \"id\": 1,\n" ++
  "            \"description\": \"a\",\n            \"status\": \"TODO\",\n" ++
  "            \"createdAt\": \"2024-01-01T00:00:00Z\",\n" ++
  "            \"updatedAt\": \"0001-01-01T00:00:00Z\"\n        \x7d\n    ]\n\x7d"

/-- The document `json.MarshalIndent(taskList, "", "    ")` renders for the zero
`TaskList`, whose `Tasks` is nil. -/
def nullDocument : String := "\x7b\n    \"tasks\": null\n\x7d"

/-- What `encoding/json` returns on the documents and collections of the
examples below: the zero `TaskList` is rendered as `nullDocument`, the
collection with an empty, non-nil slice as `emptyDocument`, the collection of
`firstTask` as `firstTaskDocument`, and `emptyDocument` and `taskZeroDocument`
are decoded; any other text, such as `x`, is reported as not decodable and
leaves the zero `TaskList`. Nothing else is tabulated; the examples use no
other input. -/
def exampleJSON : JSON where
  MarshalIndent := fun stored =>
    if stored = ⟨⟨[]⟩, true⟩ then .ok nullDocument
    else if stored = ⟨⟨[]⟩, false⟩ then .ok emptyDocument
    else if stored = ⟨⟨[firstTask]⟩, false⟩ then .ok firstTaskDocument
    else .error "not tabulated"
  MarshalTask := fun _ => .error "not tabulated"
  Unmarshal := fun data =>
    if data = emptyDocument then (⟨⟨[]⟩, false⟩, none)
    else if data = taskZeroDocument then (⟨⟨[taskZero]⟩, false⟩, none)
    else (⟨⟨[]⟩, true⟩, some "not tabulated")

/-- A world in which `task.json` holds `data` and nothing was written, printed
or logged yet. -/
def worldWith (data : String) : World :=
  { files := fun f => if f = FILENAME then some data else none,
    readOnly := false, writes := [], stdout := [], stderr := [] }

/-- All ids of the collection increase strictly in sequence order. -/
def idsIncreasing (taskList : TaskList) : Prop := (ids taskList).Pairwise (fun a b => a < b)

instance (taskList : TaskList) : Decidable (idsIncreasing taskList) := by
  unfold idsIncreasing; exact inferInstance

/-- A finite sequence of `updateTaskProgres` calls, each with its time, id and
command, applied one after the other; an error of a call is dropped and the
collection it left is passed to the next call. -/
def applyTransitions (caseTable : Char → Char) :
    List (Time × Int × String) → TaskList → TaskList
  | [], taskList => taskList
  | (now, id, command) :: calls, taskList =>
    applyTransitions caseTable calls (updateTaskProgres caseTable now taskList id command).1

/-- The status of the task equals `status` ignoring letter case. -/
def statusMatches (caseTable : Char → Char) (status : String) (task : Task) : Bool :=
  decide (ToLower caseTable task.Status = ToLower caseTable status)

/-- The line `listByStatus` and `list` print for a task: `string(out)`, which is
empty when `json.MarshalIndent` failed. -/
def printedTask (json : JSON) (task : Task) : Printed :=
  match json.MarshalTask task with
  | .ok out => .text out
  | .error _ => .text ""

/-- What a sequence of `updateTaskProgres` calls may make of a task: it is left
as it is, or it was not done and its status is now one of the two stored tokens
`in-progress` and `done`. -/
def mayBecome (caseTable : Char → Char) (t t1 : Task) : Prop :=
  t1 = t ∨
    (ToLower caseTable t.Status ≠ ToLower caseTable "DONE" ∧
      (t1.Status = "in-progress" ∨ t1.Status = "done"))

/-! ### The members `encoding/json` writes for a `Task` -/

/-- A value of one of the three field types of `Task`: `int`, `string` and the
struct `time.Time`. -/
inductive FieldValue where
  | int (n : Int)
  | string (s : String)
  | time (t : Time)
  deriving DecidableEq, Repr

/-- The emptiness test of `encoding/json` behind `omitempty` (`isEmptyValue`):
an integer is empty when it is 0, a string when its length is 0, and a value of
a struct type never is. -/
def isEmptyValue : FieldValue → Bool
  | .int n => n == 0
  | .string s => s.length == 0
  | .time _ => false

/-- One field of a struct as `encoding/json` sees it: the key and the
`omitempty` option of its tag, and its value. -/
structure Field where
  key : String
  omitempty : Bool
  value : FieldValue
  deriving DecidableEq, Repr

/-- The fields of `Task` with the tags of its declaration, in declaration order. -/
def Task.fields (t : Task) : List Field :=
  [⟨"id", false, .int t.ID⟩,
   ⟨"description", false, .string t.Description⟩,
   ⟨"status", false, .string t.Status⟩,
   ⟨"createdAt", false, .time t.CreatedAt⟩,
   ⟨"updatedAt", true, .time t.UpdatedAt⟩]

/-- The members of the JSON object `encoding/json` writes for a task: every
field in declaration order, except a field tagged `omitempty` whose value is
empty. -/
def marshalledFields (t : Task) : List Field :=
  (Task.fields t).filter (fun f => !(f.omitempty && isEmptyValue f.value))

/-- The keys of the JSON object `encoding/json` writes for a task. -/
def marshalledKeys (t : Task) : List String := (marshalledFields t).map Field.key

/-! ## Lemmas on the scans -/

theorem lookup_eq_some_split {taskList : TaskList} {id : Int} {t : Task}
    (h : lookup taskList id = some t) :
    t.ID = id ∧ ∃ pre post, taskList.Tasks = pre ++ t :: post ∧ ∀ x ∈ pre, x.ID ≠ id := by
  unfold lookup at h
  rw [List.find?_eq_some] at h
  obtain ⟨ht, pre, post, hsplit, hpre⟩ := h
  refine ⟨by simpa using ht, pre, post, hsplit, ?_⟩
  intro x hx
  simpa using hpre x hx

theorem exists_first_split (id : Int) :
    ∀ l : List Task, (∃ t ∈ l, t.ID = id) →
      ∃ pre t post, l = pre ++ t :: post ∧ (∀ x ∈ pre, x.ID ≠ id) ∧ t.ID = id
  | [], h => by obtain ⟨t, ht, _⟩ := h; simp at ht
  | a :: l, h => by
    by_cases ha : a.ID = id
    · exact ⟨[], a, l, rfl, by simp, ha⟩
    · have h2 : ∃ t ∈ l, t.ID = id := by
        obtain ⟨t, ht, hid⟩ := h
        rcases List.mem_cons.mp ht with rfl | ht2
        · exact absurd hid ha
        · exact ⟨t, ht2, hid⟩
      obtain ⟨pre, t, post, hsplit, hpre, ht⟩ := exists_first_split id l h2
      refine ⟨a :: pre, t, post, by simp [hsplit], ?_, ht⟩
      intro x hx
      rcases List.mem_cons.mp hx with rfl | hx2
      · exact ha
      · exact hpre x hx2

theorem lookup_split (taskList : TaskList) (id : Int) (pre post : List Task) (t : Task)
    (hsplit : taskList.Tasks = pre ++ t :: post) (hpre : ∀ x ∈ pre, x.ID ≠ id)
    (ht : t.ID = id) : lookup taskList id = some t := by
  unfold lookup
  rw [List.find?_eq_some]
  refine ⟨by simpa using ht, pre, post, hsplit, ?_⟩
  intro a ha
  simpa using hpre a ha

/-- The lookup finds a task exactly when the collection contains one with the id. -/
theorem lookup_isSome_iff (taskList : TaskList) (id : Int) :
    (∃ t, lookup taskList id = some t) ↔ ∃ t ∈ taskList.Tasks, t.ID = id := by
  constructor
  · rintro ⟨t, h⟩
    obtain ⟨ht, pre, post, hsplit, _⟩ := lookup_eq_some_split h
    exact ⟨t, by simp [hsplit], ht⟩
  · intro h
    obtain ⟨pre, t, post, hsplit, hpre, ht⟩ := exists_first_split id taskList.Tasks h
    exact ⟨t, lookup_split taskList id pre post t hsplit hpre ht⟩

/-- With pairwise distinct ids the lookup finds THE task with the id. -/
theorem lookup_of_mem_unique (taskList : TaskList) (id : Int) (t : Task)
    (hu : idsUnique taskList) (hmem : t ∈ taskList.Tasks) (hid : t.ID = id) :
    lookup taskList id = some t := by
  obtain ⟨pre, t1, post, hsplit, hpre, ht1⟩ :=
    exists_first_split id taskList.Tasks ⟨t, hmem, hid⟩
  have hfound := lookup_split taskList id pre post t1 hsplit hpre ht1
  rw [hsplit] at hmem
  rcases List.mem_append.mp hmem with h | h
  · exact absurd hid (hpre t h)
  · rcases List.mem_cons.mp h with h | h
    · rw [h]
      exact hfound
    · exfalso
      unfold idsUnique ids at hu
      rw [hsplit, List.map_append, List.map_cons, List.nodup_append] at hu
      have h2 := (List.nodup_cons.mp hu.2.1).1
      apply h2
      rw [ht1, ← hid]
      exact List.mem_map.mpr ⟨t, h, rfl⟩

theorem deleteTaskLoop_split (id : Int) (t : Task) (post : List Task) (ht : t.ID = id) :
    ∀ pre : List Task, (∀ x ∈ pre, x.ID ≠ id) →
      deleteTaskLoop id (pre ++ t :: post) = some (pre ++ post)
  | [], _ => by simp [deleteTaskLoop, ht]
  | a :: pre, h => by
    have ha : a.ID ≠ id := h a (by simp)
    have ih := deleteTaskLoop_split id t post ht pre (fun x hx => h x (by simp [hx]))
    simp [deleteTaskLoop, ha, ih]

theorem deleteTaskLoop_none (id : Int) :
    ∀ l : List Task, (∀ x ∈ l, x.ID ≠ id) → deleteTaskLoop id l = none
  | [], _ => rfl
  | a :: l, h => by
    have ha : a.ID ≠ id := h a (by simp)
    have ih := deleteTaskLoop_none id l (fun x hx => h x (by simp [hx]))
    simp [deleteTaskLoop, ha, ih]

theorem updateTaskLoop_split (now : Time) (id : Int) (d : String) (t : Task)
    (post : List Task) (ht : t.ID = id) :
    ∀ pre : List Task, (∀ x ∈ pre, x.ID ≠ id) →
      updateTaskLoop now id d (pre ++ t :: post)
        = some (pre ++ { t with Description := d, UpdatedAt := now } :: post)
  | [], _ => by simp [updateTaskLoop, ht]
  | a :: pre, h => by
    have ha : a.ID ≠ id := h a (by simp)
    have ih := updateTaskLoop_split now id d t post ht pre (fun x hx => h x (by simp [hx]))
    simp [updateTaskLoop, ha, ih]

theorem updateTaskLoop_none (now : Time) (id : Int) (d : String) :
    ∀ l : List Task, (∀ x ∈ l, x.ID ≠ id) → updateTaskLoop now id d l = none
  | [], _ => rfl
  | a :: l, h => by
    have ha : a.ID ≠ id := h a (by simp)
    have ih := updateTaskLoop_none now id d l (fun x hx => h x (by simp [hx]))
    simp [updateTaskLoop, ha, ih]

theorem updateTaskProgresLoop_split (caseTable : Char → Char) (now : Time) (id : Int)
    (command : String) (t : Task) (post : List Task) (ht : t.ID = id) :
    ∀ pre : List Task, (∀ x ∈ pre, x.ID ≠ id) →
      updateTaskProgresLoop caseTable now id command (pre ++ t :: post)
        = some (pre ++ (progresSwitch caseTable now command t).1 :: post,
                (progresSwitch caseTable now command t).2)
  | [], _ => by simp [updateTaskProgresLoop, ht]
  | a :: pre, h => by
    have ha : a.ID ≠ id := h a (by simp)
    have ih := updateTaskProgresLoop_split caseTable now id command t post ht pre
      (fun x hx => h x (by simp [hx]))
    simp [updateTaskProgresLoop, ha, ih]

theorem updateTaskProgresLoop_none (caseTable : Char → Char) (now : Time) (id : Int)
    (command : String) :
    ∀ l : List Task, (∀ x ∈ l, x.ID ≠ id) →
      updateTaskProgresLoop caseTable now id command l = none
  | [], _ => rfl
  | a :: l, h => by
    have ha : a.ID ≠ id := h a (by simp)
    have ih := updateTaskProgresLoop_none caseTable now id command l
      (fun x hx => h x (by simp [hx]))
    simp [updateTaskProgresLoop, ha, ih]

/-- The result of `updateTaskProgres` when the scan reaches `t` first. -/
theorem updateTaskProgres_at (caseTable : Char → Char) (now : Time) (taskList : TaskList)
    (id : Int) (command : String) (pre post : List Task) (t : Task)
    (hsplit : taskList.Tasks = pre ++ t :: post) (hpre : ∀ x ∈ pre, x.ID ≠ id)
    (ht : t.ID = id) :
    updateTaskProgres caseTable now taskList id command
      = (⟨pre ++ (progresSwitch caseTable now command t).1 :: post⟩,
         (progresSwitch caseTable now command t).2) := by
  unfold updateTaskProgres
  rw [hsplit, updateTaskProgresLoop_split caseTable now id command t post ht pre hpre]

theorem toLower_TODO (caseTable : Char → Char) : ToLower caseTable "TODO" = "todo" := rfl

theorem toLower_DONE (caseTable : Char → Char) : ToLower caseTable "DONE" = "done" := rfl

theorem toLower_in_progress (caseTable : Char → Char) :
    ToLower caseTable "in-progress" = "in-progress" := rfl

/-! ## Status transitions -/

/-- C1. For a collection in which the lookup by `id` reaches task `t`,
`updateTaskProgres(id, "mark-in-progress")` succeeds if and only if the status
of `t` equals `TODO` ignoring letter case; otherwise it returns the
invalid-transition error naming the lower-cased current status and leaves the
collection as it was. -/
theorem markInProgress_succeeds_iff_todo (caseTable : Char → Char) (now : Time)
    (taskList : TaskList) (id : Int) (t : Task) (h : lookup taskList id = some t) :
    ((updateTaskProgres caseTable now taskList id "mark-in-progress").2 = none
        ↔ ToLower caseTable t.Status = ToLower caseTable "TODO") ∧
    (ToLower caseTable t.Status ≠ ToLower caseTable "TODO" →
      updateTaskProgres caseTable now taskList id "mark-in-progress"
        = (taskList, some (.invalidTransition (ToLower caseTable t.Status) "in-progress"))) := by
  obtain ⟨ht, pre, post, hsplit, hpre⟩ := lookup_eq_some_split h
  rw [updateTaskProgres_at caseTable now taskList id _ pre post t hsplit hpre ht, toLower_TODO]
  have hl : taskList = ⟨pre ++ t :: post⟩ := by cases taskList; simp_all
  by_cases hs : ToLower caseTable t.Status = "todo"
  · simp [progresSwitch, hs]
  · simp [progresSwitch, hs, hl]

/-- Witness of C1: a task stored as `Todo` is moved, one stored as `done` is not. -/
theorem markInProgress_succeeds_iff_todo_witness :
    (updateTaskProgres id ⟨5⟩ ⟨[⟨1, "a", "Todo", ⟨1⟩, ⟨0⟩⟩]⟩ 1 "mark-in-progress").2 = none ∧
    updateTaskProgres id ⟨5⟩ ⟨[⟨1, "a", "done", ⟨1⟩, ⟨0⟩⟩]⟩ 1 "mark-in-progress"
      = (⟨[⟨1, "a", "done", ⟨1⟩, ⟨0⟩⟩]⟩, some (.invalidTransition "done" "in-progress")) :=
  ⟨(markInProgress_succeeds_iff_todo id ⟨5⟩ ⟨[⟨1, "a", "Todo", ⟨1⟩, ⟨0⟩⟩]⟩ 1
      ⟨1, "a", "Todo", ⟨1⟩, ⟨0⟩⟩ (by decide)).1.mpr (by decide),
   (markInProgress_succeeds_iff_todo id ⟨5⟩ ⟨[⟨1, "a", "done", ⟨1⟩, ⟨0⟩⟩]⟩ 1
      ⟨1, "a", "done", ⟨1⟩, ⟨0⟩⟩ (by decide)).2 (by decide)⟩

/-- C2. For a collection in which the lookup by `id` reaches task `t`,
`updateTaskProgres(id, "mark-done")` succeeds if and only if the status of `t`
equals `TODO` or the in-progress token ignoring letter case; in every other
case, and so from `DONE`, it returns the invalid-transition error and leaves the
collection as it was. -/
theorem markDone_succeeds_iff_todo_or_in_progress (caseTable : Char → Char) (now : Time)
    (taskList : TaskList) (id : Int) (t : Task) (h : lookup taskList id = some t) :
    ((updateTaskProgres caseTable now taskList id "mark-done").2 = none
        ↔ (ToLower caseTable t.Status = ToLower caseTable "TODO" ∨
           ToLower caseTable t.Status = ToLower caseTable "in-progress")) ∧
    (¬ (ToLower caseTable t.Status = ToLower caseTable "TODO" ∨
        ToLower caseTable t.Status = ToLower caseTable "in-progress") →
      updateTaskProgres caseTable now taskList id "mark-done"
        = (taskList, some (.invalidTransition (ToLower caseTable t.Status) "done"))) ∧
    (ToLower caseTable t.Status = ToLower caseTable "DONE" →
      updateTaskProgres caseTable now taskList id "mark-done"
        = (taskList, some (.invalidTransition "done" "done"))) := by
  obtain ⟨ht, pre, post, hsplit, hpre⟩ := lookup_eq_some_split h
  rw [updateTaskProgres_at caseTable now taskList id _ pre post t hsplit hpre ht,
    toLower_TODO, toLower_DONE, toLower_in_progress]
  have hl : taskList = ⟨pre ++ t :: post⟩ := by cases taskList; simp_all
  have hcmd : ("mark-done" : String) ≠ "mark-in-progress" := by decide
  by_cases hs : ToLower caseTable t.Status = "todo" ∨ ToLower caseTable t.Status = "in-progress"
  · refine ⟨by simp [progresSwitch, hs, hcmd], fun hn => absurd hs hn, ?_⟩
    intro hd
    rw [hd] at hs
    exact absurd hs (by decide)
  · refine ⟨by simp [progresSwitch, hs, hcmd], fun _ => by simp [progresSwitch, hs, hcmd, hl], ?_⟩
    intro hd
    have hs2 := hs
    rw [hd] at hs2
    simp [progresSwitch, hs, hcmd, hl, hd]

/-- Witness of C2: `mark-done` moves a task stored as `IN-PROGRESS` and rejects
one stored as `Done`. -/
theorem markDone_succeeds_iff_todo_or_in_progress_witness :
    (updateTaskProgres id ⟨5⟩ ⟨[⟨1, "a", "IN-PROGRESS", ⟨1⟩, ⟨0⟩⟩]⟩ 1 "mark-done").2 = none ∧
    updateTaskProgres id ⟨5⟩ ⟨[⟨1, "a", "Done", ⟨1⟩, ⟨0⟩⟩]⟩ 1 "mark-done"
      = (⟨[⟨1, "a", "Done", ⟨1⟩, ⟨0⟩⟩]⟩, some (.invalidTransition "done" "done")) :=
  ⟨(markDone_succeeds_iff_todo_or_in_progress id ⟨5⟩ ⟨[⟨1, "a", "IN-PROGRESS", ⟨1⟩, ⟨0⟩⟩]⟩ 1
      ⟨1, "a", "IN-PROGRESS", ⟨1⟩, ⟨0⟩⟩ (by decide)).1.mpr (by decide),
   (markDone_succeeds_iff_todo_or_in_progress id ⟨5⟩ ⟨[⟨1, "a", "Done", ⟨1⟩, ⟨0⟩⟩]⟩ 1
      ⟨1, "a", "Done", ⟨1⟩, ⟨0⟩⟩ (by decide)).2.2 (by decide)⟩

/-! ## Creating tasks -/

theorem int_max?_eq_some_iff (xs : List Int) (a : Int) :
    xs.max? = some a ↔ a ∈ xs ∧ ∀ b ∈ xs, b ≤ a := by
  haveI : Std.Antisymm (fun (x y : Int) => x ≤ y) := ⟨fun h1 h2 => le_antisymm h1 h2⟩
  exact List.max?_eq_some_iff (fun a => le_refl a) (fun a b => max_choice a b)
    (fun _ _ _ => max_le_iff)

theorem wrapInt64_succ (x : Int) (hlo : minInt64 ≤ x) (hhi : x < maxInt64) :
    wrapInt64 (x + 1) = x + 1 := by
  unfold wrapInt64
  unfold minInt64 at hlo
  unfold maxInt64 at hhi
  rw [Int.emod_eq_of_lt (by omega) (by omega)]
  omega

theorem createTask_nonempty_eq (now : Time) (taskList : TaskList) (d : String) (hd : d ≠ "") :
    createTask now taskList d =
      match taskList.Tasks.getLast? with
      | none =>
        ⟨⟨taskList.Tasks ++ [⟨1, d, "TODO", now, Time.zero⟩]⟩, 1, []⟩
      | some task =>
        ⟨⟨taskList.Tasks ++ [⟨wrapInt64 (task.ID + 1), d, "TODO", now, Time.zero⟩]⟩,
          wrapInt64 (task.ID + 1), []⟩ := by
  unfold createTask
  rw [if_neg hd]

/-- Counterexample to C3: on the collection with ids 5, 2 (in this order)
`createTask` returns 3, while the maximum id plus one is 6. -/
theorem createTask_id_not_max_plus_one :
    (createTask ⟨9⟩ ⟨[⟨5, "a", "TODO", ⟨1⟩, ⟨0⟩⟩, ⟨2, "b", "TODO", ⟨2⟩, ⟨0⟩⟩]⟩ "c").id = 3 ∧
    specNextID ⟨[⟨5, "a", "TODO", ⟨1⟩, ⟨0⟩⟩, ⟨2, "b", "TODO", ⟨2⟩, ⟨0⟩⟩]⟩ = 6 := by
  constructor <;> decide

/-- C3, amended. For every collection and every non-empty description,
`createTask` gives the appended task, and returns, the id of the LAST task plus
one (in 64-bit arithmetic), or 1 when the collection is empty. This is the
maximum id plus one whenever the last task carries the largest id of the
collection and that id is a Go `int` below the largest one. -/
theorem createTask_assigns_last_plus_one (now : Time) (taskList : TaskList) (d : String)
    (hd : d ≠ "") :
    (createTask now taskList d).taskList.Tasks.getLast?.map Task.ID
        = some (createTask now taskList d).id ∧
    (taskList.Tasks = [] → (createTask now taskList d).id = 1) ∧
    (∀ last, taskList.Tasks.getLast? = some last →
        (createTask now taskList d).id = wrapInt64 (last.ID + 1)) ∧
    ((∀ last, taskList.Tasks.getLast? = some last →
          (∀ t ∈ taskList.Tasks, t.ID ≤ last.ID) ∧ minInt64 ≤ last.ID ∧ last.ID < maxInt64) →
        (createTask now taskList d).id = specNextID taskList) := by
  rw [createTask_nonempty_eq now taskList d hd]
  cases hl : taskList.Tasks.getLast? with
  | none =>
    have hnil : taskList.Tasks = [] := List.getLast?_eq_none_iff.mp hl
    refine ⟨by simp, fun _ => rfl, fun last h => by simp at h, fun _ => ?_⟩
    simp [specNextID, maxID?, ids, hnil]
  | some last =>
    refine ⟨by simp, fun hnil => by simp [hnil] at hl, fun l h => by
      simp only [Option.some.injEq] at h; subst h; rfl, fun h => ?_⟩
    obtain ⟨hmax, hlo, hhi⟩ := h last rfl
    have hmem : last ∈ taskList.Tasks := by
      obtain ⟨ys, hys⟩ := List.getLast?_eq_some_iff.mp hl
      simp [hys]
    have hm : maxID? taskList = some last.ID := by
      unfold maxID? ids
      rw [int_max?_eq_some_iff]
      refine ⟨List.mem_map.mpr ⟨last, hmem, rfl⟩, ?_⟩
      intro b hb
      obtain ⟨t, ht, rfl⟩ := List.mem_map.mp hb
      exact hmax t ht
    simp only [specNextID, hm]
    exact wrapInt64_succ last.ID hlo hhi

/-- Witness of C3 (amended): on ids 1, 2 the new id is 3, the maximum plus one. -/
theorem createTask_assigns_last_plus_one_witness :
    (createTask ⟨9⟩ ⟨[⟨1, "a", "TODO", ⟨1⟩, ⟨0⟩⟩, ⟨2, "b", "TODO", ⟨2⟩, ⟨0⟩⟩]⟩ "c").id
      = specNextID ⟨[⟨1, "a", "TODO", ⟨1⟩, ⟨0⟩⟩, ⟨2, "b", "TODO", ⟨2⟩, ⟨0⟩⟩]⟩ :=
  (createTask_assigns_last_plus_one ⟨9⟩
      ⟨[⟨1, "a", "TODO", ⟨1⟩, ⟨0⟩⟩, ⟨2, "b", "TODO", ⟨2⟩, ⟨0⟩⟩]⟩ "c" (by decide)).2.2.2
    (by
      intro last h
      have h2 : last = ⟨2, "b", "TODO", ⟨2⟩, ⟨0⟩⟩ := by
        simp at h
        exact h.symm
      subst h2
      decide)

/-- C4. For every collection and every non-empty description `d`, `createTask`
keeps the existing tasks as they are and in order and appends exactly one task,
with description `d`, status `TODO`, `CreatedAt` the current time and a zero
`UpdatedAt`; it returns the id of that task, which is 1 on an empty collection. -/
theorem createTask_appends_new_task (now : Time) (taskList : TaskList) (d : String)
    (hd : d ≠ "") :
    ∃ newTask : Task,
      (createTask now taskList d).taskList.Tasks = taskList.Tasks ++ [newTask] ∧
      newTask.Description = d ∧ newTask.Status = "TODO" ∧ newTask.CreatedAt = now ∧
      newTask.UpdatedAt = Time.zero ∧ (createTask now taskList d).id = newTask.ID ∧
      (taskList.Tasks = [] → newTask.ID = 1) := by
  rw [createTask_nonempty_eq now taskList d hd]
  cases hl : taskList.Tasks.getLast? with
  | none => exact ⟨⟨1, d, "TODO", now, Time.zero⟩, rfl, rfl, rfl, rfl, rfl, rfl, fun _ => rfl⟩
  | some last =>
    refine ⟨⟨wrapInt64 (last.ID + 1), d, "TODO", now, Time.zero⟩, rfl, rfl, rfl, rfl, rfl, rfl, ?_⟩
    intro hnil
    simp [hnil] at hl

/-- Witness of C4: the first task of an empty collection. -/
theorem createTask_appends_new_task_witness :
    ∃ newTask : Task,
      (createTask ⟨9⟩ ⟨[]⟩ "buy milk").taskList.Tasks = [] ++ [newTask] ∧
      newTask.Description = "buy milk" ∧ newTask.Status = "TODO" ∧ newTask.CreatedAt = ⟨9⟩ ∧
      newTask.UpdatedAt = Time.zero ∧ (createTask ⟨9⟩ ⟨[]⟩ "buy milk").id = newTask.ID ∧
      (([] : List Task) = [] → newTask.ID = 1) :=
  createTask_appends_new_task ⟨9⟩ ⟨[]⟩ "buy milk" (by decide)

/-! ## Deleting and updating -/

/-- C5. If some task has the id, `deleteTask` succeeds and the result is the
sequence without one task carrying that id (the first one), the others unchanged
and in order; if no task has the id, it returns the not-found error and the
collection as it was. -/
theorem deleteTask_removes_one (taskList : TaskList) (id : Int) :
    ((∃ t ∈ taskList.Tasks, t.ID = id) →
      ∃ pre t post, taskList.Tasks = pre ++ t :: post ∧ t.ID = id ∧
        (∀ x ∈ pre, x.ID ≠ id) ∧ deleteTask taskList id = (⟨pre ++ post⟩, none)) ∧
    ((∀ t ∈ taskList.Tasks, t.ID ≠ id) →
      deleteTask taskList id = (taskList, some (.notFound id))) := by
  constructor
  · intro h
    obtain ⟨pre, t, post, hsplit, hpre, ht⟩ := exists_first_split id taskList.Tasks h
    refine ⟨pre, t, post, hsplit, ht, hpre, ?_⟩
    unfold deleteTask
    rw [hsplit, deleteTaskLoop_split id t post ht pre hpre]
  · intro h
    unfold deleteTask
    rw [deleteTaskLoop_none id taskList.Tasks h]

/-- C6. `updateTask` returns the empty-description error whenever the
description is empty, whatever the id; the not-found error when the description
is non-empty and no task has the id; and otherwise succeeds, replacing the
description of the (first) task with the id and setting its `UpdatedAt` to the
current time. A failure leaves the collection as it was; a success leaves every
other task and the target's id, status and `CreatedAt` as they were. -/
theorem updateTask_contract (now : Time) (taskList : TaskList) (id : Int) (d : String) :
    (d = "" → updateTask now taskList id d = (taskList, some .emptyDescription)) ∧
    (d ≠ "" → (∀ t ∈ taskList.Tasks, t.ID ≠ id) →
      updateTask now taskList id d = (taskList, some (.notFound id))) ∧
    (d ≠ "" → (∃ t ∈ taskList.Tasks, t.ID = id) →
      ∃ pre t post t1, taskList.Tasks = pre ++ t :: post ∧ t.ID = id ∧
        (∀ x ∈ pre, x.ID ≠ id) ∧
        updateTask now taskList id d = (⟨pre ++ t1 :: post⟩, none) ∧
        t1.Description = d ∧ t1.UpdatedAt = now ∧
        t1.ID = t.ID ∧ t1.Status = t.Status ∧ t1.CreatedAt = t.CreatedAt) := by
  refine ⟨?_, ?_, ?_⟩
  · intro hd
    unfold updateTask
    rw [if_pos hd]
  · intro hd h
    unfold updateTask
    rw [if_neg hd, updateTaskLoop_none now id d taskList.Tasks h]
  · intro hd h
    obtain ⟨pre, t, post, hsplit, hpre, ht⟩ := exists_first_split id taskList.Tasks h
    refine ⟨pre, t, post, { t with Description := d, UpdatedAt := now }, hsplit, ht, hpre, ?_,
      rfl, rfl, rfl, rfl, rfl⟩
    unfold updateTask
    rw [if_neg hd, hsplit, updateTaskLoop_split now id d t post ht pre hpre]

/-- Witness of C5: deleting id 2 from ids 1, 2, 3 and deleting the absent id 7. -/
theorem deleteTask_removes_one_witness :
    deleteTask ⟨[⟨1, "a", "TODO", ⟨1⟩, ⟨0⟩⟩, ⟨2, "b", "TODO", ⟨2⟩, ⟨0⟩⟩,
        ⟨3, "c", "done", ⟨3⟩, ⟨4⟩⟩]⟩ 7
      = (⟨[⟨1, "a", "TODO", ⟨1⟩, ⟨0⟩⟩, ⟨2, "b", "TODO", ⟨2⟩, ⟨0⟩⟩,
        ⟨3, "c", "done", ⟨3⟩, ⟨4⟩⟩]⟩, some (.notFound 7)) :=
  (deleteTask_removes_one ⟨[⟨1, "a", "TODO", ⟨1⟩, ⟨0⟩⟩, ⟨2, "b", "TODO", ⟨2⟩, ⟨0⟩⟩,
        ⟨3, "c", "done", ⟨3⟩, ⟨4⟩⟩]⟩ 7).2 (by decide)

/-- Witness of C6: an empty description is rejected for an id that exists. -/
theorem updateTask_contract_witness :
    updateTask ⟨9⟩ ⟨[⟨1, "a", "TODO", ⟨1⟩, ⟨0⟩⟩]⟩ 1 ""
      = (⟨[⟨1, "a", "TODO", ⟨1⟩, ⟨0⟩⟩]⟩, some .emptyDescription) :=
  (updateTask_contract ⟨9⟩ ⟨[⟨1, "a", "TODO", ⟨1⟩, ⟨0⟩⟩]⟩ 1 "").1 rfl

/-! ## Uniqueness of ids -/

theorem progresSwitch_ID (caseTable : Char → Char) (now : Time) (command : String) (t : Task) :
    (progresSwitch caseTable now command t).1.ID = t.ID := by
  unfold progresSwitch
  dsimp only
  split_ifs <;> rfl

theorem no_match_or_split (id : Int) (l : List Task) :
    (∀ x ∈ l, x.ID ≠ id) ∨
      ∃ pre t post, l = pre ++ t :: post ∧ (∀ x ∈ pre, x.ID ≠ id) ∧ t.ID = id := by
  by_cases h : ∃ t ∈ l, t.ID = id
  · exact Or.inr (exists_first_split id l h)
  · left
    intro x hx hid
    exact h ⟨x, hx, hid⟩

theorem ids_updateTask (now : Time) (taskList : TaskList) (id : Int) (d : String) :
    ids (updateTask now taskList id d).1 = ids taskList := by
  unfold updateTask
  by_cases hd : d = ""
  · rw [if_pos hd]
  · rw [if_neg hd]
    rcases no_match_or_split id taskList.Tasks with h | ⟨pre, t, post, hsplit, hpre, ht⟩
    · rw [updateTaskLoop_none now id d taskList.Tasks h]
    · rw [hsplit, updateTaskLoop_split now id d t post ht pre hpre]
      simp [ids, hsplit]

theorem ids_updateTaskProgres (caseTable : Char → Char) (now : Time) (taskList : TaskList)
    (id : Int) (command : String) :
    ids (updateTaskProgres caseTable now taskList id command).1 = ids taskList := by
  unfold updateTaskProgres
  rcases no_match_or_split id taskList.Tasks with h | ⟨pre, t, post, hsplit, hpre, ht⟩
  · rw [updateTaskProgresLoop_none caseTable now id command taskList.Tasks h]
  · rw [hsplit, updateTaskProgresLoop_split caseTable now id command t post ht pre hpre]
    simp [ids, hsplit, progresSwitch_ID]

theorem ids_deleteTask_sublist (taskList : TaskList) (id : Int) :
    (ids (deleteTask taskList id).1).Sublist (ids taskList) := by
  unfold deleteTask
  rcases no_match_or_split id taskList.Tasks with h | ⟨pre, t, post, hsplit, hpre, ht⟩
  · rw [deleteTaskLoop_none id taskList.Tasks h]
  · rw [hsplit, deleteTaskLoop_split id t post ht pre hpre]
    simp only [ids, hsplit, List.map_append, List.map_cons]
    exact List.Sublist.append (List.Sublist.refl _) (List.sublist_cons_self _ _)

theorem ids_createTask (now : Time) (taskList : TaskList) (d : String) (hd : d ≠ "") :
    ids (createTask now taskList d).taskList = ids taskList ++ [(createTask now taskList d).id] := by
  rw [createTask_nonempty_eq now taskList d hd]
  cases taskList.Tasks.getLast? <;> simp [ids]

theorem createTask_id_gt (now : Time) (taskList : TaskList) (d : String) (hd : d ≠ "")
    (hlast : ∀ last, taskList.Tasks.getLast? = some last →
      (∀ t ∈ taskList.Tasks, t.ID ≤ last.ID) ∧ minInt64 ≤ last.ID ∧ last.ID < maxInt64) :
    ∀ t ∈ taskList.Tasks, t.ID < (createTask now taskList d).id := by
  rw [createTask_nonempty_eq now taskList d hd]
  cases hl : taskList.Tasks.getLast? with
  | none =>
    have hnil : taskList.Tasks = [] := List.getLast?_eq_none_iff.mp hl
    simp [hnil]
  | some last =>
    obtain ⟨hmax, hlo, hhi⟩ := hlast last hl
    intro t ht
    have h1 := hmax t ht
    simp only
    rw [wrapInt64_succ last.ID hlo hhi]
    omega

/-- Counterexample to C7: the ids 2, 1 are pairwise distinct, and `createTask`
appends a second task with id 2. -/
theorem createTask_breaks_unique_ids :
    idsUnique ⟨[⟨2, "a", "TODO", ⟨1⟩, ⟨0⟩⟩, ⟨1, "b", "TODO", ⟨2⟩, ⟨0⟩⟩]⟩ ∧
    ids (createTask ⟨9⟩ ⟨[⟨2, "a", "TODO", ⟨1⟩, ⟨0⟩⟩, ⟨1, "b", "TODO", ⟨2⟩, ⟨0⟩⟩]⟩ "c").taskList
      = [2, 1, 2] ∧
    ¬ idsUnique
      (createTask ⟨9⟩ ⟨[⟨2, "a", "TODO", ⟨1⟩, ⟨0⟩⟩, ⟨1, "b", "TODO", ⟨2⟩, ⟨0⟩⟩]⟩ "c").taskList := by
  refine ⟨by decide, by decide, by decide⟩

/-- C7, amended. On a collection with pairwise distinct ids, `updateTask`,
`updateTaskProgres` and `deleteTask` (any arguments) again give pairwise
distinct ids. `createTask` does so exactly when the description is empty or the
id it assigns does not occur in the collection yet; that is the case whenever
the last task carries the largest id and that id is a Go `int` below the
largest one. -/
theorem operations_preserve_unique_ids (caseTable : Char → Char) (now : Time)
    (taskList : TaskList) (id : Int) (d command : String) (h : idsUnique taskList) :
    idsUnique (updateTask now taskList id d).1 ∧
    idsUnique (updateTaskProgres caseTable now taskList id command).1 ∧
    idsUnique (deleteTask taskList id).1 ∧
    (idsUnique (createTask now taskList d).taskList
      ↔ (d = "" ∨ (createTask now taskList d).id ∉ ids taskList)) ∧
    ((∀ last, taskList.Tasks.getLast? = some last →
        (∀ t ∈ taskList.Tasks, t.ID ≤ last.ID) ∧ minInt64 ≤ last.ID ∧ last.ID < maxInt64) →
      idsUnique (createTask now taskList d).taskList) := by
  have hcreate : d ≠ "" →
      (idsUnique (createTask now taskList d).taskList
        ↔ (createTask now taskList d).id ∉ ids taskList) := by
    intro hd
    unfold idsUnique at h ⊢
    rw [ids_createTask now taskList d hd, List.nodup_append]
    simp [h]
  refine ⟨?_, ?_, ?_, ?_, ?_⟩
  · unfold idsUnique
    rw [ids_updateTask]
    exact h
  · unfold idsUnique
    rw [ids_updateTaskProgres]
    exact h
  · exact List.Nodup.sublist (ids_deleteTask_sublist taskList id) h
  · by_cases hd : d = ""
    · have : (createTask now taskList d).taskList = taskList := by
        unfold createTask
        rw [if_pos hd]
      rw [this]
      exact ⟨fun _ => Or.inl hd, fun _ => h⟩
    · rw [hcreate hd]
      simp [hd]
  · intro hlast
    by_cases hd : d = ""
    · have : (createTask now taskList d).taskList = taskList := by
        unfold createTask
        rw [if_pos hd]
      rw [this]
      exact h
    · rw [hcreate hd]
      intro hmem
      obtain ⟨t, ht, hid⟩ := List.mem_map.mp hmem
      have := createTask_id_gt now taskList d hd hlast t ht
      omega

/-- Witness of C7 (amended): on ids 1, 2 every operation keeps the ids distinct. -/
theorem operations_preserve_unique_ids_witness :
    idsUnique (deleteTask ⟨[⟨1, "a", "TODO", ⟨1⟩, ⟨0⟩⟩, ⟨2, "b", "TODO", ⟨2⟩, ⟨0⟩⟩]⟩ 1).1 ∧
    idsUnique (createTask ⟨9⟩
      ⟨[⟨1, "a", "TODO", ⟨1⟩, ⟨0⟩⟩, ⟨2, "b", "TODO", ⟨2⟩, ⟨0⟩⟩]⟩ "c").taskList :=
  ⟨(operations_preserve_unique_ids id ⟨9⟩
      ⟨[⟨1, "a", "TODO", ⟨1⟩, ⟨0⟩⟩, ⟨2, "b", "TODO", ⟨2⟩, ⟨0⟩⟩]⟩ 1 "c" "mark-done"
      (by decide)).2.2.1,
   ((operations_preserve_unique_ids id ⟨9⟩
      ⟨[⟨1, "a", "TODO", ⟨1⟩, ⟨0⟩⟩, ⟨2, "b", "TODO", ⟨2⟩, ⟨0⟩⟩]⟩ 1 "c" "mark-done"
      (by decide)).2.2.2.1).mpr (Or.inr (by decide))⟩

/-! ## Reuse of the highest id -/

theorem wrapInt64_of_isInt64 (x : Int) (h : isInt64 x) : wrapInt64 x = x := by
  unfold wrapInt64
  unfold isInt64 minInt64 maxInt64 at h
  rw [Int.emod_eq_of_lt (by omega) (by omega)]
  omega

/-- Counterexample to C8: the ids 1, 5 are unique and 5 is the maximum; after
deleting task 5 the next `createTask` assigns 2, not 5. -/
theorem delete_max_then_create_assigns_other_id :
    idsUnique ⟨[⟨1, "a", "TODO", ⟨1⟩, ⟨0⟩⟩, ⟨5, "b", "TODO", ⟨2⟩, ⟨0⟩⟩]⟩ ∧
    maxID? ⟨[⟨1, "a", "TODO", ⟨1⟩, ⟨0⟩⟩, ⟨5, "b", "TODO", ⟨2⟩, ⟨0⟩⟩]⟩ = some 5 ∧
    deleteTask ⟨[⟨1, "a", "TODO", ⟨1⟩, ⟨0⟩⟩, ⟨5, "b", "TODO", ⟨2⟩, ⟨0⟩⟩]⟩ 5
      = (⟨[⟨1, "a", "TODO", ⟨1⟩, ⟨0⟩⟩]⟩, none) ∧
    (createTask ⟨9⟩
      (deleteTask ⟨[⟨1, "a", "TODO", ⟨1⟩, ⟨0⟩⟩, ⟨5, "b", "TODO", ⟨2⟩, ⟨0⟩⟩]⟩ 5).1 "c").id = 2 := by
  refine ⟨by decide, by decide, by decide, by decide⟩

/-- C8, amended. Let the last task `m` of a collection carry its largest id,
strictly above all others, and let that id be a Go `int` that exceeds the id of
the task before it by exactly one (or be 1 when `m` is the only task). Then for
every non-empty description, deleting `m` by its id succeeds and the next
`createTask` assigns that same id again. -/
theorem delete_max_then_create_reuses_id (now : Time) (pre : List Task) (m : Task)
    (d : String) (hd : d ≠ "") (hmax : ∀ t ∈ pre, t.ID < m.ID) (hint : isInt64 m.ID)
    (hgap : (pre = [] ∧ m.ID = 1) ∨ (∃ p, pre.getLast? = some p ∧ m.ID = p.ID + 1)) :
    maxID? ⟨pre ++ [m]⟩ = some m.ID ∧
    deleteTask ⟨pre ++ [m]⟩ m.ID = (⟨pre⟩, none) ∧
    (createTask now (deleteTask ⟨pre ++ [m]⟩ m.ID).1 d).id = m.ID := by
  have hdel : deleteTask ⟨pre ++ [m]⟩ m.ID = (⟨pre⟩, none) := by
    unfold deleteTask
    have := deleteTaskLoop_split m.ID m [] rfl pre (fun x hx => by have := hmax x hx; omega)
    simp only [this, List.append_nil]
  refine ⟨?_, hdel, ?_⟩
  · unfold maxID? ids
    rw [int_max?_eq_some_iff]
    refine ⟨by simp, ?_⟩
    intro b hb
    obtain ⟨t, ht, rfl⟩ := List.mem_map.mp hb
    rcases List.mem_append.mp ht with h1 | h1
    · exact le_of_lt (hmax t h1)
    · simp at h1
      rw [h1]
  · rw [hdel, createTask_nonempty_eq now ⟨pre⟩ d hd]
    rcases hgap with ⟨hnil, h1⟩ | ⟨p, hp, h1⟩
    · subst hnil
      simp [h1]
    · simp only [hp]
      rw [← h1]
      exact wrapInt64_of_isInt64 m.ID hint

/-- Witness of C8 (amended): on ids 1, 2, 3 deleting task 3 and creating again
assigns 3. -/
theorem delete_max_then_create_reuses_id_witness :
    (createTask ⟨9⟩
      (deleteTask ⟨[⟨1, "a", "TODO", ⟨1⟩, ⟨0⟩⟩, ⟨2, "b", "TODO", ⟨2⟩, ⟨0⟩⟩] ++
        [⟨3, "c", "TODO", ⟨3⟩, ⟨0⟩⟩]⟩ (3 : Int)).1 "d").id = 3 :=
  (delete_max_then_create_reuses_id ⟨9⟩
    [⟨1, "a", "TODO", ⟨1⟩, ⟨0⟩⟩, ⟨2, "b", "TODO", ⟨2⟩, ⟨0⟩⟩] ⟨3, "c", "TODO", ⟨3⟩, ⟨0⟩⟩ "d"
    (by decide) (by decide) (by decide) (Or.inr ⟨⟨2, "b", "TODO", ⟨2⟩, ⟨0⟩⟩, by decide⟩)).2.2

/-! ## The session: what reaches the file after a rejected operation -/

theorem sameFileSystem_trans {a b c : World} (h1 : sameFileSystem a b)
    (h2 : sameFileSystem b c) : sameFileSystem a c :=
  ⟨h1.1.trans h2.1, h1.2.1.trans h2.2.1, h1.2.2.trans h2.2.2⟩

theorem check_sameFileSystem (err : Option Failure) (msg : String) (w : World) :
    sameFileSystem (check err msg w) w := by
  cases err <;> exact ⟨rfl, rfl, rfl⟩

theorem saveTasks_sameFileSystem (json : JSON) (filename : String) (taskList : Stored)
    {a b : World} (h : sameFileSystem a b) :
    sameFileSystem (saveTasks json filename taskList a).1
      (saveTasks json filename taskList b).1 := by
  obtain ⟨af, ar, aw, ao, ae⟩ := a
  obtain ⟨bf, br, bw, bo, be⟩ := b
  simp only [sameFileSystem] at h
  obtain ⟨rfl, rfl, rfl⟩ := h
  unfold saveTasks
  cases json.MarshalIndent taskList with
  | error e => exact ⟨rfl, rfl, rfl⟩
  | ok data =>
    unfold osWriteFile
    cases ar <;> exact ⟨rfl, rfl, rfl⟩

theorem progresSwitch_fail (caseTable : Char → Char) (now : Time) (command : String)
    (t : Task) (h : (progresSwitch caseTable now command t).2 ≠ none) :
    (progresSwitch caseTable now command t).1 = t := by
  unfold progresSwitch at h ⊢
  dsimp only at h ⊢
  split_ifs at h ⊢ <;> first | rfl | exact absurd rfl h

theorem updateTask_fail_unchanged (now : Time) (taskList : TaskList) (id : Int) (d : String)
    (h : (updateTask now taskList id d).2 ≠ none) : (updateTask now taskList id d).1 = taskList := by
  unfold updateTask at h ⊢
  by_cases hd : d = ""
  · rw [if_pos hd]
  · rw [if_neg hd] at h ⊢
    rcases no_match_or_split id taskList.Tasks with hn | ⟨pre, t, post, hsplit, hpre, ht⟩
    · rw [updateTaskLoop_none now id d taskList.Tasks hn]
    · rw [hsplit, updateTaskLoop_split now id d t post ht pre hpre] at h
      exact absurd rfl h

theorem deleteTask_fail_unchanged (taskList : TaskList) (id : Int)
    (h : (deleteTask taskList id).2 ≠ none) : (deleteTask taskList id).1 = taskList := by
  unfold deleteTask at h ⊢
  rcases no_match_or_split id taskList.Tasks with hn | ⟨pre, t, post, hsplit, hpre, ht⟩
  · rw [deleteTaskLoop_none id taskList.Tasks hn]
  · rw [hsplit, deleteTaskLoop_split id t post ht pre hpre] at h
    exact absurd rfl h

theorem updateTaskProgres_fail_unchanged (caseTable : Char → Char) (now : Time)
    (taskList : TaskList) (id : Int) (command : String)
    (h : (updateTaskProgres caseTable now taskList id command).2 ≠ none) :
    (updateTaskProgres caseTable now taskList id command).1 = taskList := by
  rcases no_match_or_split id taskList.Tasks with hn | ⟨pre, t, post, hsplit, hpre, ht⟩
  · unfold updateTaskProgres
    rw [updateTaskProgresLoop_none caseTable now id command taskList.Tasks hn]
  · rw [updateTaskProgres_at caseTable now taskList id command pre post t hsplit hpre ht] at h ⊢
    have := progresSwitch_fail caseTable now command t h
    cases taskList
    simp_all

theorem updateTask_absent (now : Time) (taskList : TaskList) (id : Int) (d : String)
    (h : ∀ t ∈ taskList.Tasks, t.ID ≠ id) : (updateTask now taskList id d).1 = taskList := by
  unfold updateTask
  by_cases hd : d = ""
  · rw [if_pos hd]
  · rw [if_neg hd, updateTaskLoop_none now id d taskList.Tasks h]

theorem deleteTask_absent (taskList : TaskList) (id : Int)
    (h : ∀ t ∈ taskList.Tasks, t.ID ≠ id) : (deleteTask taskList id).1 = taskList := by
  unfold deleteTask
  rw [deleteTaskLoop_none id taskList.Tasks h]

theorem updateTaskProgres_absent (caseTable : Char → Char) (now : Time) (taskList : TaskList)
    (id : Int) (command : String) (h : ∀ t ∈ taskList.Tasks, t.ID ≠ id) :
    (updateTaskProgres caseTable now taskList id command).1 = taskList := by
  unfold updateTaskProgres
  rw [updateTaskProgresLoop_none caseTable now id command taskList.Tasks h]

theorem main_update (json : JSON) (caseTable : Char → Char) (now : Time) (prog : String)
    (rest : List String) (w : World) :
    main json caseTable now (prog :: "update" :: rest) w = mainUpdate json now rest w := rfl

theorem main_delete (json : JSON) (caseTable : Char → Char) (now : Time) (prog : String)
    (rest : List String) (w : World) :
    main json caseTable now (prog :: "delete" :: rest) w = mainDelete json rest w := rfl

theorem main_mark_in_progress (json : JSON) (caseTable : Char → Char) (now : Time)
    (prog : String) (rest : List String) (w : World) :
    main json caseTable now (prog :: "mark-in-progress" :: rest) w
      = mainMark json caseTable now "mark-in-progress" rest w := rfl

theorem main_mark_done (json : JSON) (caseTable : Char → Char) (now : Time)
    (prog : String) (rest : List String) (w : World) :
    main json caseTable now (prog :: "mark-done" :: rest) w
      = mainMark json caseTable now "mark-done" rest w := rfl

/-- The `update` command persists what `updateTask` leaves in the collection. -/
theorem mainUpdate_persists (json : JSON) (now : Time) (arg2 arg3 : String)
    (rest : List String) (w : World) :
    sameFileSystem (mainUpdate json now (arg2 :: arg3 :: rest) w).1
      (saveTasks json FILENAME
        ⟨(updateTask now (loadTasks json FILENAME w).1.taskList (Atoi arg2).1 arg3).1,
          (loadTasks json FILENAME w).1.nilTasks⟩ w).1 := by
  unfold mainUpdate updateStep
  exact sameFileSystem_trans (check_sameFileSystem _ _ _)
    (saveTasks_sameFileSystem json FILENAME _
      (sameFileSystem_trans (check_sameFileSystem _ _ _)
        (sameFileSystem_trans (check_sameFileSystem _ _ _) (check_sameFileSystem _ _ _))))

/-- The `delete` command persists what `deleteTask` leaves in the collection. -/
theorem mainDelete_persists (json : JSON) (arg2 : String) (rest : List String) (w : World) :
    sameFileSystem (mainDelete json (arg2 :: rest) w).1
      (saveTasks json FILENAME
        ⟨(deleteTask (loadTasks json FILENAME w).1.taskList (Atoi arg2).1).1,
          (loadTasks json FILENAME w).1.nilTasks⟩ w).1 := by
  unfold mainDelete deleteStep
  exact sameFileSystem_trans (check_sameFileSystem _ _ _)
    (saveTasks_sameFileSystem json FILENAME _
      (sameFileSystem_trans (check_sameFileSystem _ _ _) (check_sameFileSystem _ _ _)))

/-- The `mark-*` commands persist what `updateTaskProgres` leaves in the
collection. -/
theorem mainMark_persists (json : JSON) (caseTable : Char → Char) (now : Time)
    (arg1 arg2 : String) (rest : List String) (w : World) :
    sameFileSystem (mainMark json caseTable now arg1 (arg2 :: rest) w).1
      (saveTasks json FILENAME
        ⟨(updateTaskProgres caseTable now (loadTasks json FILENAME w).1.taskList
            (Atoi arg2).1 arg1).1,
          (loadTasks json FILENAME w).1.nilTasks⟩ w).1 := by
  unfold mainMark markStep
  exact sameFileSystem_trans (check_sameFileSystem _ _ _)
    (saveTasks_sameFileSystem json FILENAME _
      (sameFileSystem_trans (check_sameFileSystem _ _ _) (check_sameFileSystem _ _ _)))

theorem Atoi_syntax_value (s : String) (h : (Atoi s).2 = some .ErrSyntax) : (Atoi s).1 = 0 := by
  unfold Atoi at h ⊢
  cases hs : s.data with
  | nil => rfl
  | cons c cs =>
    simp only [hs] at h ⊢
    cases hd : (if c = '+' ∨ c = '-' then cs else c :: cs) with
    | nil => rfl
    | cons d ds =>
      simp only [hd] at h ⊢
      split_ifs at h ⊢ <;> first | rfl | simp at h

/-- Counterexample to C9: `task.json` holds the collection without tasks and the
command is `delete 1`. `deleteTask` fails with the not-found error, and the
command still writes the file. -/
theorem session_saves_after_failed_operation :
    (loadTasks exampleJSON FILENAME (worldWith emptyDocument)) = (⟨⟨[]⟩, false⟩, none) ∧
    (deleteTask (loadTasks exampleJSON FILENAME (worldWith emptyDocument)).1.taskList
        (Atoi "1").1).2
      = some (.notFound 1) ∧
    (worldWith emptyDocument).writes = [] ∧
    (main exampleJSON id ⟨9⟩ ["tasklist", "delete", "1"] (worldWith emptyDocument)).1.writes
      = [(FILENAME, emptyDocument)] := by
  refine ⟨by decide, by decide, by decide, by decide⟩

/-- C9, amended. In the session for `update`, `delete`, `mark-in-progress` and
`mark-done`: when the repository operation fails, the command still calls
`saveTasks`, and what it saves is the collection exactly as loaded, so that its
effect on the file system is that of saving the loaded collection. -/
theorem failed_operation_persists_loaded_collection (json : JSON) (caseTable : Char → Char)
    (now : Time) (prog arg2 arg3 : String) (rest : List String) (w : World) :
    ((updateTask now (loadTasks json FILENAME w).1.taskList (Atoi arg2).1 arg3).2 ≠ none →
      sameFileSystem
        (main json caseTable now (prog :: "update" :: arg2 :: arg3 :: rest) w).1
        (saveTasks json FILENAME (loadTasks json FILENAME w).1 w).1) ∧
    ((deleteTask (loadTasks json FILENAME w).1.taskList (Atoi arg2).1).2 ≠ none →
      sameFileSystem
        (main json caseTable now (prog :: "delete" :: arg2 :: rest) w).1
        (saveTasks json FILENAME (loadTasks json FILENAME w).1 w).1) ∧
    ((updateTaskProgres caseTable now (loadTasks json FILENAME w).1.taskList (Atoi arg2).1
          "mark-in-progress").2 ≠ none →
      sameFileSystem
        (main json caseTable now (prog :: "mark-in-progress" :: arg2 :: rest) w).1
        (saveTasks json FILENAME (loadTasks json FILENAME w).1 w).1) ∧
    ((updateTaskProgres caseTable now (loadTasks json FILENAME w).1.taskList (Atoi arg2).1
          "mark-done").2 ≠ none →
      sameFileSystem
        (main json caseTable now (prog :: "mark-done" :: arg2 :: rest) w).1
        (saveTasks json FILENAME (loadTasks json FILENAME w).1 w).1) := by
  refine ⟨fun h => ?_, fun h => ?_, fun h => ?_, fun h => ?_⟩
  · rw [main_update]
    have := mainUpdate_persists json now arg2 arg3 rest w
    rwa [updateTask_fail_unchanged now _ _ _ h] at this
  · rw [main_delete]
    have := mainDelete_persists json arg2 rest w
    rwa [deleteTask_fail_unchanged _ _ h] at this
  · rw [main_mark_in_progress]
    have := mainMark_persists json caseTable now "mark-in-progress" arg2 rest w
    rwa [updateTaskProgres_fail_unchanged caseTable now _ _ _ h] at this
  · rw [main_mark_done]
    have := mainMark_persists json caseTable now "mark-done" arg2 rest w
    rwa [updateTaskProgres_fail_unchanged caseTable now _ _ _ h] at this

/-- Witness of C9 (amended): `delete 1` on the collection without tasks. -/
theorem failed_operation_persists_loaded_collection_witness :
    sameFileSystem
      (main exampleJSON id ⟨9⟩ ("tasklist" :: "delete" :: "1" :: [])
        (worldWith emptyDocument)).1
      (saveTasks exampleJSON FILENAME
        (loadTasks exampleJSON FILENAME (worldWith emptyDocument)).1
        (worldWith emptyDocument)).1 :=
  (failed_operation_persists_loaded_collection exampleJSON id ⟨9⟩ "tasklist" "1" "" []
    (worldWith emptyDocument)).2.1 (by decide)

/-- Counterexample to C10: `task.json` holds one task with id 0 and the command
is `delete abc`. `Atoi` fails, `deleteTask` is called with id 0 all the same, and
the file is rewritten without the task. -/
theorem unparsable_id_deletes_task_zero :
    (Atoi "abc") = (0, some .ErrSyntax) ∧
    loadTasks exampleJSON FILENAME (worldWith taskZeroDocument)
      = (⟨⟨[taskZero]⟩, false⟩, none) ∧
    (deleteStep "abc" ⟨[taskZero]⟩ (worldWith taskZeroDocument)).1 = ⟨[]⟩ ∧
    (main exampleJSON id ⟨9⟩ ["tasklist", "delete", "abc"]
        (worldWith taskZeroDocument)).1.files FILENAME = some emptyDocument := by
  refine ⟨by decide, by decide, by decide, by decide⟩

/-- C10, amended. For every id argument on which `strconv.Atoi` fails, the
repository operation is still attempted, with the id `Atoi` returns next to its
error (0 on a syntax error): `update`, `delete`, `mark-in-progress` and
`mark-done` leave in the collection, and persist, what `updateTask`,
`deleteTask` and `updateTaskProgres` make of the loaded collection for that id,
so that a task which has that id is updated, deleted or moved. The loaded
collection is unchanged, and is what the command persists, whenever no task of
it has that id. -/
theorem unparsable_id_operates_on_returned_id (json : JSON) (caseTable : Char → Char)
    (now : Time) (prog arg2 arg3 : String) (rest : List String) (taskList : TaskList)
    (w : World) (e : NumError) (h : (Atoi arg2).2 = some e) :
    (e = .ErrSyntax → (Atoi arg2).1 = 0) ∧
    ((updateStep now arg2 arg3 taskList w).1 = (updateTask now taskList (Atoi arg2).1 arg3).1 ∧
      (deleteStep arg2 taskList w).1 = (deleteTask taskList (Atoi arg2).1).1 ∧
      (markStep caseTable now "mark-in-progress" arg2 taskList w).1
        = (updateTaskProgres caseTable now taskList (Atoi arg2).1 "mark-in-progress").1 ∧
      (markStep caseTable now "mark-done" arg2 taskList w).1
        = (updateTaskProgres caseTable now taskList (Atoi arg2).1 "mark-done").1) ∧
    (∀ pre t post, taskList.Tasks = pre ++ t :: post → (∀ x ∈ pre, x.ID ≠ (Atoi arg2).1) →
      t.ID = (Atoi arg2).1 →
      (deleteStep arg2 taskList w).1 = ⟨pre ++ post⟩ ∧
      (arg3 ≠ "" → (updateStep now arg2 arg3 taskList w).1
        = ⟨pre ++ { t with Description := arg3, UpdatedAt := now } :: post⟩) ∧
      (markStep caseTable now "mark-in-progress" arg2 taskList w).1
        = ⟨pre ++ (progresSwitch caseTable now "mark-in-progress" t).1 :: post⟩ ∧
      (markStep caseTable now "mark-done" arg2 taskList w).1
        = ⟨pre ++ (progresSwitch caseTable now "mark-done" t).1 :: post⟩) ∧
    (sameFileSystem
        (main json caseTable now (prog :: "update" :: arg2 :: arg3 :: rest) w).1
        (saveTasks json FILENAME
          ⟨(updateTask now (loadTasks json FILENAME w).1.taskList (Atoi arg2).1 arg3).1,
            (loadTasks json FILENAME w).1.nilTasks⟩ w).1 ∧
      sameFileSystem
        (main json caseTable now (prog :: "delete" :: arg2 :: rest) w).1
        (saveTasks json FILENAME
          ⟨(deleteTask (loadTasks json FILENAME w).1.taskList (Atoi arg2).1).1,
            (loadTasks json FILENAME w).1.nilTasks⟩ w).1 ∧
      sameFileSystem
        (main json caseTable now (prog :: "mark-in-progress" :: arg2 :: rest) w).1
        (saveTasks json FILENAME
          ⟨(updateTaskProgres caseTable now (loadTasks json FILENAME w).1.taskList
              (Atoi arg2).1 "mark-in-progress").1,
            (loadTasks json FILENAME w).1.nilTasks⟩ w).1 ∧
      sameFileSystem
        (main json caseTable now (prog :: "mark-done" :: arg2 :: rest) w).1
        (saveTasks json FILENAME
          ⟨(updateTaskProgres caseTable now (loadTasks json FILENAME w).1.taskList
              (Atoi arg2).1 "mark-done").1,
            (loadTasks json FILENAME w).1.nilTasks⟩ w).1) ∧
    ((∀ t ∈ taskList.Tasks, t.ID ≠ (Atoi arg2).1) →
      (updateStep now arg2 arg3 taskList w).1 = taskList ∧
      (deleteStep arg2 taskList w).1 = taskList ∧
      (markStep caseTable now "mark-in-progress" arg2 taskList w).1 = taskList ∧
      (markStep caseTable now "mark-done" arg2 taskList w).1 = taskList ∧
      ((loadTasks json FILENAME w).1.taskList = taskList →
        sameFileSystem
          (main json caseTable now (prog :: "update" :: arg2 :: arg3 :: rest) w).1
          (saveTasks json FILENAME (loadTasks json FILENAME w).1 w).1 ∧
        sameFileSystem
          (main json caseTable now (prog :: "delete" :: arg2 :: rest) w).1
          (saveTasks json FILENAME (loadTasks json FILENAME w).1 w).1 ∧
        sameFileSystem
          (main json caseTable now (prog :: "mark-in-progress" :: arg2 :: rest) w).1
          (saveTasks json FILENAME (loadTasks json FILENAME w).1 w).1 ∧
        sameFileSystem
          (main json caseTable now (prog :: "mark-done" :: arg2 :: rest) w).1
          (saveTasks json FILENAME (loadTasks json FILENAME w).1 w).1)) := by
  have hmain := And.intro (mainUpdate_persists json now arg2 arg3 rest w)
    (And.intro (mainDelete_persists json arg2 rest w)
      (And.intro (mainMark_persists json caseTable now "mark-in-progress" arg2 rest w)
        (mainMark_persists json caseTable now "mark-done" arg2 rest w)))
  rw [← main_update json caseTable now prog, ← main_delete json caseTable now prog,
    ← main_mark_in_progress json caseTable now prog,
    ← main_mark_done json caseTable now prog] at hmain
  refine ⟨fun he => Atoi_syntax_value arg2 (by rw [h, he]), ⟨rfl, rfl, rfl, rfl⟩, ?_, hmain, ?_⟩
  · intro pre t post hsplit hpre ht
    refine ⟨?_, ?_, ?_, ?_⟩
    · show (deleteTask taskList (Atoi arg2).1).1 = _
      unfold deleteTask
      rw [hsplit, deleteTaskLoop_split _ t post ht pre hpre]
    · intro hd
      show (updateTask now taskList (Atoi arg2).1 arg3).1 = _
      unfold updateTask
      rw [if_neg hd, hsplit, updateTaskLoop_split now _ arg3 t post ht pre hpre]
    · show (updateTaskProgres caseTable now taskList (Atoi arg2).1 "mark-in-progress").1 = _
      rw [updateTaskProgres_at caseTable now taskList _ _ pre post t hsplit hpre ht]
    · show (updateTaskProgres caseTable now taskList (Atoi arg2).1 "mark-done").1 = _
      rw [updateTaskProgres_at caseTable now taskList _ _ pre post t hsplit hpre ht]
  · intro hno
    refine ⟨updateTask_absent now taskList _ arg3 hno, deleteTask_absent taskList _ hno,
      updateTaskProgres_absent caseTable now taskList _ _ hno,
      updateTaskProgres_absent caseTable now taskList _ _ hno, ?_⟩
    intro hl
    rw [← hl] at hno
    obtain ⟨h1, h2, h3, h4⟩ := hmain
    rw [updateTask_absent now _ _ arg3 hno] at h1
    rw [deleteTask_absent _ _ hno] at h2
    rw [updateTaskProgres_absent caseTable now _ _ _ hno] at h3 h4
    exact ⟨h1, h2, h3, h4⟩

/-- Witness of C10 (amended): `delete abc` removes the task with id 0 from a
collection with the ids 0 and 1, and leaves a collection with the ids 1 and 2 as
it is. -/
theorem unparsable_id_operates_on_returned_id_witness :
    (deleteStep "abc" ⟨[] ++ ⟨0, "z", "TODO", ⟨1⟩, ⟨0⟩⟩ :: [⟨1, "a", "TODO", ⟨1⟩, ⟨0⟩⟩]⟩
        (worldWith emptyDocument)).1 = ⟨[] ++ [⟨1, "a", "TODO", ⟨1⟩, ⟨0⟩⟩]⟩ ∧
    (deleteStep "abc" ⟨[⟨1, "a", "TODO", ⟨1⟩, ⟨0⟩⟩, ⟨2, "b", "done", ⟨2⟩, ⟨3⟩⟩]⟩
        (worldWith emptyDocument)).1
      = ⟨[⟨1, "a", "TODO", ⟨1⟩, ⟨0⟩⟩, ⟨2, "b", "done", ⟨2⟩, ⟨3⟩⟩]⟩ :=
  ⟨((unparsable_id_operates_on_returned_id exampleJSON id ⟨9⟩ "tasklist" "abc" "x" []
      ⟨[] ++ ⟨0, "z", "TODO", ⟨1⟩, ⟨0⟩⟩ :: [⟨1, "a", "TODO", ⟨1⟩, ⟨0⟩⟩]⟩
      (worldWith emptyDocument) .ErrSyntax (by decide)).2.2.1
      [] ⟨0, "z", "TODO", ⟨1⟩, ⟨0⟩⟩ [⟨1, "a", "TODO", ⟨1⟩, ⟨0⟩⟩] rfl (by simp) (by decide)).1,
   ((unparsable_id_operates_on_returned_id exampleJSON id ⟨9⟩ "tasklist" "abc" "x" []
      ⟨[⟨1, "a", "TODO", ⟨1⟩, ⟨0⟩⟩, ⟨2, "b", "done", ⟨2⟩, ⟨3⟩⟩]⟩ (worldWith emptyDocument)
      .ErrSyntax (by decide)).2.2.2.2 (by decide)).2.1⟩

/-! ## Transitions: unknown commands, frame, terminal state -/

/-- C12. For every collection, id and command other than `mark-in-progress` and
`mark-done`, `updateTaskProgres` returns an error and the collection as it was:
the unknown-command error when a task with the id exists, the not-found error
when none does. -/
theorem unknown_command_rejected (caseTable : Char → Char) (now : Time)
    (taskList : TaskList) (id : Int) (command : String)
    (h1 : command ≠ "mark-in-progress") (h2 : command ≠ "mark-done") :
    ((∃ t ∈ taskList.Tasks, t.ID = id) →
      updateTaskProgres caseTable now taskList id command
        = (taskList, some (.unknownCommand command))) ∧
    ((∀ t ∈ taskList.Tasks, t.ID ≠ id) →
      updateTaskProgres caseTable now taskList id command
        = (taskList, some (.notFound id))) := by
  constructor
  · intro h
    obtain ⟨pre, t, post, hsplit, hpre, ht⟩ := exists_first_split id taskList.Tasks h
    rw [updateTaskProgres_at caseTable now taskList id command pre post t hsplit hpre ht]
    have hl : taskList = ⟨pre ++ t :: post⟩ := by cases taskList; simp_all
    simp [progresSwitch, h1, h2, hl]
  · intro h
    unfold updateTaskProgres
    rw [updateTaskProgresLoop_none caseTable now id command taskList.Tasks h]

/-- Witness of C12: the command `MARK-DONE` on an existing and on an absent id. -/
theorem unknown_command_rejected_witness :
    updateTaskProgres id ⟨9⟩ ⟨[⟨1, "a", "TODO", ⟨1⟩, ⟨0⟩⟩]⟩ 1 "MARK-DONE"
      = (⟨[⟨1, "a", "TODO", ⟨1⟩, ⟨0⟩⟩]⟩, some (.unknownCommand "MARK-DONE")) ∧
    updateTaskProgres id ⟨9⟩ ⟨[⟨1, "a", "TODO", ⟨1⟩, ⟨0⟩⟩]⟩ 2 "MARK-DONE"
      = (⟨[⟨1, "a", "TODO", ⟨1⟩, ⟨0⟩⟩]⟩, some (.notFound 2)) :=
  ⟨(unknown_command_rejected id ⟨9⟩ ⟨[⟨1, "a", "TODO", ⟨1⟩, ⟨0⟩⟩]⟩ 1 "MARK-DONE"
      (by decide) (by decide)).1 (by decide),
   (unknown_command_rejected id ⟨9⟩ ⟨[⟨1, "a", "TODO", ⟨1⟩, ⟨0⟩⟩]⟩ 2 "MARK-DONE"
      (by decide) (by decide)).2 (by decide)⟩

/-- What `progresSwitch` returns when it reports no error. -/
theorem progresSwitch_success (caseTable : Char → Char) (now : Time) (command : String)
    (t : Task) (h : (progresSwitch caseTable now command t).2 = none) :
    (command = "mark-in-progress" ∧ ToLower caseTable t.Status = "todo" ∧
      (progresSwitch caseTable now command t).1
        = { t with Status := "in-progress", UpdatedAt := now }) ∨
    (command = "mark-done" ∧
      (ToLower caseTable t.Status = "todo" ∨ ToLower caseTable t.Status = "in-progress") ∧
      (progresSwitch caseTable now command t).1
        = { t with Status := "done", UpdatedAt := now }) := by
  unfold progresSwitch at h ⊢
  dsimp only at h ⊢
  split_ifs at h ⊢ with hc hs hc2 hs2
  · exact Or.inl ⟨hc, hs, rfl⟩
  · exact Or.inr ⟨hc2, hs2, rfl⟩

/-- C14. A successful `updateTaskProgres(id, command)` changes only the status
and `UpdatedAt` of one task with that id, the first one: the status becomes
`in-progress` for `mark-in-progress` and `done` for `mark-done`, `UpdatedAt`
becomes the current time; its id, description and `CreatedAt`, the number and
order of the tasks and every other task stay as they were. -/
theorem successful_transition_frame (caseTable : Char → Char) (now : Time)
    (taskList : TaskList) (id : Int) (command : String)
    (h : (updateTaskProgres caseTable now taskList id command).2 = none) :
    ∃ pre t post t1, taskList.Tasks = pre ++ t :: post ∧ (∀ x ∈ pre, x.ID ≠ id) ∧
      t.ID = id ∧
      (updateTaskProgres caseTable now taskList id command).1.Tasks = pre ++ t1 :: post ∧
      t1.ID = t.ID ∧ t1.Description = t.Description ∧ t1.CreatedAt = t.CreatedAt ∧
      t1.UpdatedAt = now ∧
      ((command = "mark-in-progress" ∧ t1.Status = "in-progress") ∨
        (command = "mark-done" ∧ t1.Status = "done")) := by
  rcases no_match_or_split id taskList.Tasks with hn | ⟨pre, t, post, hsplit, hpre, ht⟩
  · unfold updateTaskProgres at h
    rw [updateTaskProgresLoop_none caseTable now id command taskList.Tasks hn] at h
    simp at h
  · rw [updateTaskProgres_at caseTable now taskList id command pre post t hsplit hpre ht] at h ⊢
    refine ⟨pre, t, post, (progresSwitch caseTable now command t).1, hsplit, hpre, ht, rfl, ?_⟩
    rcases progresSwitch_success caseTable now command t h with ⟨hc, _, he⟩ | ⟨hc, _, he⟩
    · rw [he]
      exact ⟨rfl, rfl, rfl, rfl, Or.inl ⟨hc, rfl⟩⟩
    · rw [he]
      exact ⟨rfl, rfl, rfl, rfl, Or.inr ⟨hc, rfl⟩⟩

/-- Witness of C14: `mark-done` on the second of two tasks. -/
theorem successful_transition_frame_witness :
    ∃ pre t post t1,
      ([⟨1, "a", "TODO", ⟨1⟩, ⟨0⟩⟩, ⟨2, "b", "in-progress", ⟨2⟩, ⟨3⟩⟩] : List Task)
        = pre ++ t :: post ∧ (∀ x ∈ pre, x.ID ≠ 2) ∧ t.ID = 2 ∧
      (updateTaskProgres id ⟨9⟩
        ⟨[⟨1, "a", "TODO", ⟨1⟩, ⟨0⟩⟩, ⟨2, "b", "in-progress", ⟨2⟩, ⟨3⟩⟩]⟩ 2 "mark-done").1.Tasks
        = pre ++ t1 :: post ∧
      t1.ID = t.ID ∧ t1.Description = t.Description ∧ t1.CreatedAt = t.CreatedAt ∧
      t1.UpdatedAt = ⟨9⟩ ∧
      ((("mark-done" : String) = "mark-in-progress" ∧ t1.Status = "in-progress") ∨
        (("mark-done" : String) = "mark-done" ∧ t1.Status = "done")) :=
  successful_transition_frame id ⟨9⟩
    ⟨[⟨1, "a", "TODO", ⟨1⟩, ⟨0⟩⟩, ⟨2, "b", "in-progress", ⟨2⟩, ⟨3⟩⟩]⟩ 2 "mark-done" (by decide)

theorem toLower_done (caseTable : Char → Char) : ToLower caseTable "done" = "done" := rfl

theorem mayBecome_refl (caseTable : Char → Char) (t : Task) : mayBecome caseTable t t :=
  Or.inl rfl

theorem mayBecome_trans (caseTable : Char → Char) {a b c : Task}
    (h1 : mayBecome caseTable a b) (h2 : mayBecome caseTable b c) : mayBecome caseTable a c := by
  rcases h1 with rfl | ⟨ha, _⟩
  · exact h2
  · rcases h2 with rfl | ⟨_, hc⟩
    · exact Or.inr ⟨ha, by assumption⟩
    · exact Or.inr ⟨ha, hc⟩

theorem progresSwitch_mayBecome (caseTable : Char → Char) (now : Time) (command : String)
    (t : Task) : mayBecome caseTable t (progresSwitch caseTable now command t).1 := by
  cases hr : (progresSwitch caseTable now command t).2 with
  | some e =>
    left
    exact progresSwitch_fail caseTable now command t (by rw [hr]; simp)
  | none =>
    right
    rw [toLower_DONE]
    rcases progresSwitch_success caseTable now command t hr with ⟨_, hs, he⟩ | ⟨_, hs, he⟩
    · rw [he]
      exact ⟨by rw [hs]; decide, Or.inl rfl⟩
    · rw [he]
      refine ⟨?_, Or.inr rfl⟩
      rcases hs with hs | hs <;> rw [hs] <;> decide

theorem forall₂_mayBecome_refl (caseTable : Char → Char) (l : List Task) :
    List.Forall₂ (mayBecome caseTable) l l :=
  List.forall₂_same.mpr (fun t _ => mayBecome_refl caseTable t)

theorem forall₂_mayBecome_trans (caseTable : Char → Char) :
    ∀ {a b c : List Task}, List.Forall₂ (mayBecome caseTable) a b →
      List.Forall₂ (mayBecome caseTable) b c → List.Forall₂ (mayBecome caseTable) a c
  | [], _, _, h1, h2 => by
    cases h1
    cases h2
    exact List.Forall₂.nil
  | x :: xs, _, _, h1, h2 => by
    cases h1 with
    | cons hxy hrest =>
      cases h2 with
      | cons hyz hrest2 =>
        exact List.Forall₂.cons (mayBecome_trans caseTable hxy hyz)
          (forall₂_mayBecome_trans caseTable hrest hrest2)

theorem updateTaskProgres_mayBecome (caseTable : Char → Char) (now : Time)
    (taskList : TaskList) (id : Int) (command : String) :
    List.Forall₂ (mayBecome caseTable) taskList.Tasks
      (updateTaskProgres caseTable now taskList id command).1.Tasks := by
  rcases no_match_or_split id taskList.Tasks with hn | ⟨pre, t, post, hsplit, hpre, ht⟩
  · unfold updateTaskProgres
    rw [updateTaskProgresLoop_none caseTable now id command taskList.Tasks hn]
    exact forall₂_mayBecome_refl caseTable _
  · rw [updateTaskProgres_at caseTable now taskList id command pre post t hsplit hpre ht, hsplit]
    exact List.rel_append (forall₂_mayBecome_refl caseTable pre)
      (List.Forall₂.cons (progresSwitch_mayBecome caseTable now command t)
        (forall₂_mayBecome_refl caseTable post))

theorem applyTransitions_mayBecome (caseTable : Char → Char) :
    ∀ (calls : List (Time × Int × String)) (taskList : TaskList),
      List.Forall₂ (mayBecome caseTable) taskList.Tasks
        (applyTransitions caseTable calls taskList).Tasks
  | [], _ => forall₂_mayBecome_refl caseTable _
  | (now, id, command) :: calls, taskList =>
    forall₂_mayBecome_trans caseTable
      (updateTaskProgres_mayBecome caseTable now taskList id command)
      (applyTransitions_mayBecome caseTable calls _)

theorem forall₂_getElem? {R : Task → Task → Prop} :
    ∀ {a b : List Task}, List.Forall₂ R a b → ∀ (i : Nat) (t : Task), a[i]? = some t →
      ∃ t1, b[i]? = some t1 ∧ R t t1
  | _, _, List.Forall₂.nil, i, t, h => by simp at h
  | _, _, List.Forall₂.cons hxy hrest, i, t, h => by
    cases i with
    | zero =>
      simp only [List.getElem?_cons_zero, Option.some.injEq] at h
      subst h
      exact ⟨_, by simp, hxy⟩
    | succ n =>
      simp only [List.getElem?_cons_succ] at h
      obtain ⟨t1, h1, h2⟩ := forall₂_getElem? hrest n t h
      exact ⟨t1, by simpa using h1, h2⟩

/-- C13. For every collection and every finite sequence of `updateTaskProgres`
calls (any times, ids and commands), the tasks keep their number and positions,
a task whose status equals `DONE` ignoring letter case is left exactly as it is,
and a task whose status has changed does not have the status `TODO`, in any
letter case. As the collection and the sequence are arbitrary, this holds of
every single call within a sequence. -/
theorem done_is_terminal_and_todo_not_reentered (caseTable : Char → Char)
    (calls : List (Time × Int × String)) (taskList : TaskList) :
    (applyTransitions caseTable calls taskList).Tasks.length = taskList.Tasks.length ∧
    ∀ (i : Nat) (t : Task), taskList.Tasks[i]? = some t →
      ∃ t1, (applyTransitions caseTable calls taskList).Tasks[i]? = some t1 ∧
        (ToLower caseTable t.Status = ToLower caseTable "DONE" → t1 = t) ∧
        (t1.Status ≠ t.Status → ToLower caseTable t1.Status ≠ ToLower caseTable "TODO") := by
  have hall := applyTransitions_mayBecome caseTable calls taskList
  refine ⟨hall.length_eq.symm, ?_⟩
  intro i t hi
  obtain ⟨t1, h1, hr⟩ := forall₂_getElem? hall i t hi
  refine ⟨t1, h1, ?_, ?_⟩
  · intro hdone
    rcases hr with h | ⟨hnd, _⟩
    · exact h
    · exact absurd hdone hnd
  · intro hne
    rcases hr with h | ⟨_, hs | hs⟩
    · exact absurd (by rw [h]) hne
    · rw [hs, toLower_TODO, toLower_in_progress]
      decide
    · rw [hs, toLower_TODO, toLower_done]
      decide

/-- Witness of C13: a done task and a task in progress under three calls. -/
theorem done_is_terminal_and_todo_not_reentered_witness :
    (applyTransitions id
      [(⟨7⟩, 1, "mark-in-progress"), (⟨8⟩, 1, "mark-done"), (⟨9⟩, 2, "mark-done")]
      ⟨[⟨1, "a", "Done", ⟨1⟩, ⟨2⟩⟩, ⟨2, "b", "in-progress", ⟨3⟩, ⟨4⟩⟩]⟩).Tasks
      = [⟨1, "a", "Done", ⟨1⟩, ⟨2⟩⟩, ⟨2, "b", "done", ⟨3⟩, ⟨9⟩⟩] ∧
    (applyTransitions id
      [(⟨7⟩, 1, "mark-in-progress"), (⟨8⟩, 1, "mark-done"), (⟨9⟩, 2, "mark-done")]
      ⟨[⟨1, "a", "Done", ⟨1⟩, ⟨2⟩⟩, ⟨2, "b", "in-progress", ⟨3⟩, ⟨4⟩⟩]⟩).Tasks.length = 2 :=
  ⟨by decide,
   (done_is_terminal_and_todo_not_reentered id
      [(⟨7⟩, 1, "mark-in-progress"), (⟨8⟩, 1, "mark-done"), (⟨9⟩, 2, "mark-done")]
      ⟨[⟨1, "a", "Done", ⟨1⟩, ⟨2⟩⟩, ⟨2, "b", "in-progress", ⟨3⟩, ⟨4⟩⟩]⟩).1⟩

/-! ## Creating tasks: rejection, consecutive ids, increasing ids -/

theorem wrapInt64_succ_ne_zero (x : Int) (h : isInt64 x) (hne : x ≠ -1) :
    wrapInt64 (x + 1) ≠ 0 := by
  unfold isInt64 minInt64 maxInt64 at h
  unfold wrapInt64
  omega

theorem createTask_id_of_getLast (now : Time) (taskList : TaskList) (d : String) (hd : d ≠ "")
    (last : Task) (hl : taskList.Tasks.getLast? = some last) :
    (createTask now taskList d).id = wrapInt64 (last.ID + 1) := by
  rw [createTask_nonempty_eq now taskList d hd, hl]

theorem createTask_id_of_nil (now : Time) (taskList : TaskList) (d : String) (hd : d ≠ "")
    (hl : taskList.Tasks = []) : (createTask now taskList d).id = 1 := by
  rw [createTask_nonempty_eq now taskList d hd, hl]
  rfl

theorem createTask_getLast (now : Time) (taskList : TaskList) (d : String) (hd : d ≠ "") :
    (createTask now taskList d).taskList.Tasks.getLast?
      = some ⟨(createTask now taskList d).id, d, "TODO", now, Time.zero⟩ := by
  rw [createTask_nonempty_eq now taskList d hd]
  cases taskList.Tasks.getLast? <;> simp

theorem createTask_length (now : Time) (taskList : TaskList) (d : String) (hd : d ≠ "") :
    (createTask now taskList d).taskList.Tasks.length = taskList.Tasks.length + 1 := by
  rw [createTask_nonempty_eq now taskList d hd]
  cases taskList.Tasks.getLast? <;> simp

theorem createTask_stdout (now : Time) (taskList : TaskList) (d : String) (hd : d ≠ "") :
    (createTask now taskList d).stdout = [] := by
  rw [createTask_nonempty_eq now taskList d hd]
  cases taskList.Tasks.getLast? <;> rfl

/-- C15. For every collection, `createTask` with the empty description appends
nothing: it returns the collection as it was, prints the line
`task description cannot be empty` and returns 0. That outcome differs from the
outcome of every successful call, which prints nothing and returns a collection
longer by one task; and 0 is not an id a successful call assigns, unless the
last id of its collection is -1. -/
theorem createTask_rejects_empty_description (now : Time) (taskList : TaskList) :
    createTask now taskList "" = ⟨taskList, 0, ["task description cannot be empty"]⟩ ∧
    (∀ (now1 : Time) (taskList1 : TaskList) (d : String), d ≠ "" →
      (createTask now1 taskList1 d).stdout = [] ∧
      (createTask now1 taskList1 d).taskList.Tasks.length = taskList1.Tasks.length + 1 ∧
      createTask now1 taskList1 d ≠ createTask now taskList "") ∧
    (∀ (now1 : Time) (taskList1 : TaskList) (d : String), d ≠ "" →
      (∀ last, taskList1.Tasks.getLast? = some last → isInt64 last.ID ∧ last.ID ≠ -1) →
      (createTask now1 taskList1 d).id ≠ (createTask now taskList "").id) := by
  have hrej : createTask now taskList "" = ⟨taskList, 0, ["task description cannot be empty"]⟩ := by
    unfold createTask
    rw [if_pos rfl]
  refine ⟨hrej, ?_, ?_⟩
  · intro now1 taskList1 d hd
    refine ⟨createTask_stdout now1 taskList1 d hd, createTask_length now1 taskList1 d hd, ?_⟩
    intro heq
    have h1 := congrArg CreateResult.stdout heq
    rw [createTask_stdout now1 taskList1 d hd, hrej] at h1
    simp at h1
  · intro now1 taskList1 d hd hlast
    rw [hrej]
    cases hl : taskList1.Tasks.getLast? with
    | none =>
      rw [createTask_id_of_nil now1 taskList1 d hd (List.getLast?_eq_none_iff.mp hl)]
      exact one_ne_zero
    | some last =>
      rw [createTask_id_of_getLast now1 taskList1 d hd last hl]
      exact wrapInt64_succ_ne_zero last.ID (hlast last hl).1 (hlast last hl).2

/-- Witness of C15: the empty description on a collection of one task. -/
theorem createTask_rejects_empty_description_witness :
    createTask ⟨9⟩ ⟨[⟨1, "a", "TODO", ⟨1⟩, ⟨0⟩⟩]⟩ ""
      = ⟨⟨[⟨1, "a", "TODO", ⟨1⟩, ⟨0⟩⟩]⟩, 0, ["task description cannot be empty"]⟩ ∧
    (createTask ⟨9⟩ ⟨[⟨1, "a", "TODO", ⟨1⟩, ⟨0⟩⟩]⟩ "b").id
      ≠ (createTask ⟨9⟩ ⟨[⟨1, "a", "TODO", ⟨1⟩, ⟨0⟩⟩]⟩ "").id :=
  ⟨(createTask_rejects_empty_description ⟨9⟩ ⟨[⟨1, "a", "TODO", ⟨1⟩, ⟨0⟩⟩]⟩).1,
   (createTask_rejects_empty_description ⟨9⟩ ⟨[⟨1, "a", "TODO", ⟨1⟩, ⟨0⟩⟩]⟩).2.2
      ⟨9⟩ ⟨[⟨1, "a", "TODO", ⟨1⟩, ⟨0⟩⟩]⟩ "b" (by decide)
      (by
        intro last h
        have h2 : last = ⟨1, "a", "TODO", ⟨1⟩, ⟨0⟩⟩ := by
          simp at h
          exact h.symm
        subst h2
        decide)⟩

/-- Counterexample to C16: the only task has id 9223372036854775806. The first
`createTask` returns the largest `int`, the second wraps around to the smallest
one, which is neither larger nor the first plus one. -/
theorem consecutive_creates_wrap_around :
    (createTask ⟨8⟩ ⟨[⟨9223372036854775806, "a", "TODO", ⟨1⟩, ⟨0⟩⟩]⟩ "b").id
      = 9223372036854775807 ∧
    (createTask ⟨9⟩
      (createTask ⟨8⟩ ⟨[⟨9223372036854775806, "a", "TODO", ⟨1⟩, ⟨0⟩⟩]⟩ "b").taskList "c").id
      = -9223372036854775808 := by
  constructor <;> decide

/-- C16, amended. For every collection that is empty or whose last id is a Go
`int` at least two below the largest one, and every two non-empty descriptions,
two consecutive `createTask` calls return strictly increasing ids, the second
being exactly the first plus one. -/
theorem consecutive_creates_increase (now1 now2 : Time) (taskList : TaskList)
    (d1 d2 : String) (hd1 : d1 ≠ "") (hd2 : d2 ≠ "")
    (hlast : ∀ last, taskList.Tasks.getLast? = some last →
      minInt64 ≤ last.ID ∧ last.ID < maxInt64 - 1) :
    (createTask now2 (createTask now1 taskList d1).taskList d2).id
      = (createTask now1 taskList d1).id + 1 ∧
    (createTask now1 taskList d1).id
      < (createTask now2 (createTask now1 taskList d1).taskList d2).id := by
  have h2 := createTask_id_of_getLast now2 (createTask now1 taskList d1).taskList d2 hd2 _
    (createTask_getLast now1 taskList d1 hd1)
  simp only at h2
  have hrange : minInt64 ≤ (createTask now1 taskList d1).id ∧
      (createTask now1 taskList d1).id < maxInt64 := by
    cases hl : taskList.Tasks.getLast? with
    | none =>
      rw [createTask_id_of_nil now1 taskList d1 hd1 (List.getLast?_eq_none_iff.mp hl)]
      decide
    | some last =>
      obtain ⟨hlo, hhi⟩ := hlast last hl
      rw [createTask_id_of_getLast now1 taskList d1 hd1 last hl,
        wrapInt64_succ last.ID hlo (by omega)]
      constructor <;> omega
  rw [h2, wrapInt64_succ _ hrange.1 hrange.2]
  exact ⟨rfl, by omega⟩

/-- Witness of C16 (amended): two tasks created on an empty collection get the
ids 1 and 2. -/
theorem consecutive_creates_increase_witness :
    (createTask ⟨9⟩ (createTask ⟨8⟩ ⟨[]⟩ "a").taskList "b").id
      = (createTask ⟨8⟩ ⟨[]⟩ "a").id + 1 ∧
    (createTask ⟨8⟩ ⟨[]⟩ "a").id < (createTask ⟨9⟩ (createTask ⟨8⟩ ⟨[]⟩ "a").taskList "b").id :=
  consecutive_creates_increase ⟨8⟩ ⟨9⟩ ⟨[]⟩ "a" "b" (by decide) (by decide)
    (by intro last h; simp at h)

theorem idsIncreasing_last_max (taskList : TaskList) (h : idsIncreasing taskList)
    (last : Task) (hl : taskList.Tasks.getLast? = some last) :
    ∀ t ∈ taskList.Tasks, t.ID ≤ last.ID := by
  obtain ⟨ys, hys⟩ := List.getLast?_eq_some_iff.mp hl
  unfold idsIncreasing ids at h
  rw [hys, List.map_append, List.pairwise_append] at h
  intro t ht
  rw [hys] at ht
  rcases List.mem_append.mp ht with h1 | h1
  · exact le_of_lt (h.2.2 t.ID (List.mem_map.mpr ⟨t, h1, rfl⟩) last.ID (by simp))
  · simp at h1
    rw [h1]

theorem createTask_id_eq_specNextID (now : Time) (taskList : TaskList) (d : String)
    (hd : d ≠ "")
    (hlast : ∀ last, taskList.Tasks.getLast? = some last →
      (∀ t ∈ taskList.Tasks, t.ID ≤ last.ID) ∧ minInt64 ≤ last.ID ∧ last.ID < maxInt64) :
    (createTask now taskList d).id = specNextID taskList := by
  cases hl : taskList.Tasks.getLast? with
  | none =>
    have hnil : taskList.Tasks = [] := List.getLast?_eq_none_iff.mp hl
    rw [createTask_id_of_nil now taskList d hd hnil]
    simp [specNextID, maxID?, ids, hnil]
  | some last =>
    obtain ⟨hmax, hlo, hhi⟩ := hlast last hl
    rw [createTask_id_of_getLast now taskList d hd last hl, wrapInt64_succ last.ID hlo hhi]
    have hmem : last ∈ taskList.Tasks := by
      obtain ⟨ys, hys⟩ := List.getLast?_eq_some_iff.mp hl
      simp [hys]
    have hm : maxID? taskList = some last.ID := by
      unfold maxID? ids
      rw [int_max?_eq_some_iff]
      refine ⟨List.mem_map.mpr ⟨last, hmem, rfl⟩, ?_⟩
      intro b hb
      obtain ⟨t, ht, rfl⟩ := List.mem_map.mp hb
      exact hmax t ht
    simp only [specNextID, hm]

/-- Counterexample to C19: the ids -9223372036854775808, 9223372036854775807
increase strictly. `createTask` wraps around and assigns
-9223372036854775808: the ids no longer increase, the new id already occurs in
the collection, and it is not the maximum id plus one. -/
theorem createTask_breaks_increasing_ids :
    idsIncreasing ⟨[⟨-9223372036854775808, "a", "TODO", ⟨1⟩, ⟨0⟩⟩,
      ⟨9223372036854775807, "b", "TODO", ⟨2⟩, ⟨0⟩⟩]⟩ ∧
    ¬ idsIncreasing (createTask ⟨9⟩ ⟨[⟨-9223372036854775808, "a", "TODO", ⟨1⟩, ⟨0⟩⟩,
      ⟨9223372036854775807, "b", "TODO", ⟨2⟩, ⟨0⟩⟩]⟩ "c").taskList ∧
    (createTask ⟨9⟩ ⟨[⟨-9223372036854775808, "a", "TODO", ⟨1⟩, ⟨0⟩⟩,
      ⟨9223372036854775807, "b", "TODO", ⟨2⟩, ⟨0⟩⟩]⟩ "c").id = -9223372036854775808 ∧
    specNextID ⟨[⟨-9223372036854775808, "a", "TODO", ⟨1⟩, ⟨0⟩⟩,
      ⟨9223372036854775807, "b", "TODO", ⟨2⟩, ⟨0⟩⟩]⟩ = 9223372036854775808 := by
  refine ⟨by decide, by decide, by decide, by decide⟩

/-- C19, amended. On a collection whose ids increase strictly in sequence
order, `updateTask`, `updateTaskProgres` and `deleteTask` (any arguments) give a
collection whose ids again increase strictly. When in addition the last id is a
Go `int` below the largest one, `createTask` does so too, and for a non-empty
description the id it assigns is the maximum id plus one (1 on the empty
collection) and does not occur in the collection. -/
theorem operations_preserve_increasing_ids (caseTable : Char → Char) (now : Time)
    (taskList : TaskList) (id : Int) (d command : String) (h : idsIncreasing taskList) :
    idsIncreasing (updateTask now taskList id d).1 ∧
    idsIncreasing (updateTaskProgres caseTable now taskList id command).1 ∧
    idsIncreasing (deleteTask taskList id).1 ∧
    ((∀ last, taskList.Tasks.getLast? = some last →
        minInt64 ≤ last.ID ∧ last.ID < maxInt64) →
      idsIncreasing (createTask now taskList d).taskList ∧
      (d ≠ "" → (createTask now taskList d).id = specNextID taskList ∧
        (createTask now taskList d).id ∉ ids taskList)) := by
  refine ⟨?_, ?_, ?_, ?_⟩
  · unfold idsIncreasing
    rw [ids_updateTask]
    exact h
  · unfold idsIncreasing
    rw [ids_updateTaskProgres]
    exact h
  · exact List.Pairwise.sublist (ids_deleteTask_sublist taskList id) h
  · intro hint
    have hlast : ∀ last, taskList.Tasks.getLast? = some last →
        (∀ t ∈ taskList.Tasks, t.ID ≤ last.ID) ∧ minInt64 ≤ last.ID ∧ last.ID < maxInt64 :=
      fun last hl => ⟨idsIncreasing_last_max taskList h last hl, hint last hl⟩
    by_cases hd : d = ""
    · have hsame : (createTask now taskList d).taskList = taskList := by
        unfold createTask
        rw [if_pos hd]
      rw [hsame]
      exact ⟨h, fun hne => absurd hd hne⟩
    · have hgt := createTask_id_gt now taskList d hd hlast
      refine ⟨?_, fun _ => ⟨createTask_id_eq_specNextID now taskList d hd hlast, ?_⟩⟩
      · unfold idsIncreasing at h ⊢
        rw [ids_createTask now taskList d hd, List.pairwise_append]
        refine ⟨h, by simp, ?_⟩
        intro a ha b hb
        obtain ⟨t, ht, rfl⟩ := List.mem_map.mp ha
        simp only [List.mem_singleton] at hb
        rw [hb]
        exact hgt t ht
      · intro hmem
        obtain ⟨t, ht, hid⟩ := List.mem_map.mp hmem
        have := hgt t ht
        omega

/-- Witness of C19 (amended): on ids 1, 3 the new id is 4 and the ids still
increase. -/
theorem operations_preserve_increasing_ids_witness :
    idsIncreasing (createTask ⟨9⟩
      ⟨[⟨1, "a", "TODO", ⟨1⟩, ⟨0⟩⟩, ⟨3, "b", "TODO", ⟨2⟩, ⟨0⟩⟩]⟩ "c").taskList ∧
    (createTask ⟨9⟩ ⟨[⟨1, "a", "TODO", ⟨1⟩, ⟨0⟩⟩, ⟨3, "b", "TODO", ⟨2⟩, ⟨0⟩⟩]⟩ "c").id
      = specNextID ⟨[⟨1, "a", "TODO", ⟨1⟩, ⟨0⟩⟩, ⟨3, "b", "TODO", ⟨2⟩, ⟨0⟩⟩]⟩ :=
  have hw := (operations_preserve_increasing_ids id ⟨9⟩
      ⟨[⟨1, "a", "TODO", ⟨1⟩, ⟨0⟩⟩, ⟨3, "b", "TODO", ⟨2⟩, ⟨0⟩⟩]⟩ 1 "c" "mark-done"
      (by decide)).2.2.2
    (by
      intro last hl
      have h2 : last = ⟨3, "b", "TODO", ⟨2⟩, ⟨0⟩⟩ := by
        simp at hl
        exact hl.symm
      subst h2
      decide)
  ⟨hw.1, (hw.2 (by decide)).1⟩

/-! ## The dispatcher and the raw command -/

theorem main_of_mark (json : JSON) (caseTable : Char → Char) (now : Time) (prog arg1 : String)
    (rest : List String) (w : World)
    (h : ToLower caseTable arg1 = "mark-in-progress" ∨ ToLower caseTable arg1 = "mark-done") :
    main json caseTable now (prog :: arg1 :: rest) w
      = mainMark json caseTable now arg1 rest w := by
  unfold main
  rcases h with h | h
  · simp only [h]
    rw [if_neg (by decide), if_neg (by decide), if_neg (by decide), if_neg (by decide),
      if_pos trivial]
  · simp only [h]
    rw [if_neg (by decide), if_neg (by decide), if_neg (by decide), if_neg (by decide),
      if_neg (by decide), if_pos trivial]

theorem updateTaskProgres_unknown_fails (caseTable : Char → Char) (now : Time)
    (taskList : TaskList) (id : Int) (command : String)
    (h1 : command ≠ "mark-in-progress") (h2 : command ≠ "mark-done") :
    (updateTaskProgres caseTable now taskList id command).2 ≠ none := by
  rcases no_match_or_split id taskList.Tasks with hn | ⟨pre, t, post, hsplit, hpre, ht⟩
  · unfold updateTaskProgres
    rw [updateTaskProgresLoop_none caseTable now id command taskList.Tasks hn]
    simp
  · rw [updateTaskProgres_at caseTable now taskList id command pre post t hsplit hpre ht]
    simp [progresSwitch, h1, h2]

/-- C20. `main` selects the `mark-in-progress` / `mark-done` case on the
lower-cased first argument and passes the first argument as typed to
`updateTaskProgres`. For every first argument that lower-cases to one of the two
commands without being its own lower-casing (such as `MARK-DONE`),
`updateTaskProgres` fails for every collection and id, the collection is left as
loaded whatever the status of its tasks, and the command persists the loaded
collection. -/
theorem raw_command_never_transitions (json : JSON) (caseTable : Char → Char) (now : Time)
    (prog arg1 arg2 : String) (rest : List String) (w : World)
    (hlow : ToLower caseTable arg1 = "mark-in-progress" ∨ ToLower caseTable arg1 = "mark-done")
    (hraw : arg1 ≠ ToLower caseTable arg1) :
    main json caseTable now (prog :: arg1 :: arg2 :: rest) w
      = mainMark json caseTable now arg1 (arg2 :: rest) w ∧
    (∀ (taskList : TaskList) (id : Int),
      (updateTaskProgres caseTable now taskList id arg1).2 ≠ none ∧
      (updateTaskProgres caseTable now taskList id arg1).1 = taskList) ∧
    (∀ (taskList : TaskList) (w1 : World),
      (markStep caseTable now arg1 arg2 taskList w1).1 = taskList) ∧
    sameFileSystem (main json caseTable now (prog :: arg1 :: arg2 :: rest) w).1
      (saveTasks json FILENAME (loadTasks json FILENAME w).1 w).1 := by
  have h1 : arg1 ≠ "mark-in-progress" := by
    intro h
    apply hraw
    rw [h]
    rfl
  have h2 : arg1 ≠ "mark-done" := by
    intro h
    apply hraw
    rw [h]
    rfl
  have hfail : ∀ (taskList : TaskList) (id : Int),
      (updateTaskProgres caseTable now taskList id arg1).2 ≠ none ∧
      (updateTaskProgres caseTable now taskList id arg1).1 = taskList := fun taskList id =>
    ⟨updateTaskProgres_unknown_fails caseTable now taskList id arg1 h1 h2,
     updateTaskProgres_fail_unchanged caseTable now taskList id arg1
       (updateTaskProgres_unknown_fails caseTable now taskList id arg1 h1 h2)⟩
  refine ⟨main_of_mark json caseTable now prog arg1 _ w hlow, hfail,
    fun taskList w1 => (hfail taskList _).2, ?_⟩
  rw [main_of_mark json caseTable now prog arg1 _ w hlow]
  have := mainMark_persists json caseTable now arg1 arg2 rest w
  rwa [(hfail _ _).2] at this

/-- Witness of C20: `MARK-DONE 1` leaves a task that is in progress as it is. -/
theorem raw_command_never_transitions_witness :
    (updateTaskProgres id ⟨9⟩ ⟨[⟨1, "a", "in-progress", ⟨1⟩, ⟨2⟩⟩]⟩ 1 "MARK-DONE").2 ≠ none ∧
    (updateTaskProgres id ⟨9⟩ ⟨[⟨1, "a", "in-progress", ⟨1⟩, ⟨2⟩⟩]⟩ 1 "MARK-DONE").1
      = ⟨[⟨1, "a", "in-progress", ⟨1⟩, ⟨2⟩⟩]⟩ :=
  (raw_command_never_transitions exampleJSON id ⟨9⟩ "tasklist" "MARK-DONE" "1" []
    (worldWith emptyDocument) (Or.inr (by decide)) (by decide)).2.1
    ⟨[⟨1, "a", "in-progress", ⟨1⟩, ⟨2⟩⟩]⟩ 1

/-! ## Listing by status -/

theorem listByStatusLoop_spec (json : JSON) (caseTable : Char → Char) (status : String) :
    ∀ (tasks : List Task) (w : World) (found : Bool),
      (listByStatusLoop json caseTable status tasks w found).1.stdout
        = w.stdout ++ (tasks.filter (statusMatches caseTable status)).map (printedTask json) ∧
      (listByStatusLoop json caseTable status tasks w found).2
        = (found || !(tasks.filter (statusMatches caseTable status)).isEmpty)
  | [], w, found => by simp [listByStatusLoop]
  | task :: rest, w, found => by
    unfold listByStatusLoop
    by_cases hm : ToLower caseTable task.Status = ToLower caseTable status
    · have hs : statusMatches caseTable status task = true := by
        simp [statusMatches, hm]
      rw [if_pos hm, List.filter_cons_of_pos hs]
      cases hj : json.MarshalTask task with
      | ok out =>
        have ih := listByStatusLoop_spec json caseTable status rest (println out w) true
        simp only [ih.1, ih.2]
        simp [println, printedTask, hj]
      | error e =>
        have ih := listByStatusLoop_spec json caseTable status rest
          (println "" (check (some (.json e)) "error marshalling task" w)) true
        simp only [ih.1, ih.2]
        simp [println, check, printedTask, hj]
    · have hs : ¬ statusMatches caseTable status task = true := by
        simp [statusMatches, hm]
      rw [if_neg hm, List.filter_cons_of_neg hs]
      exact listByStatusLoop_spec json caseTable status rest w found

theorem check_stdout (err : Option Failure) (msg : String) (w : World) :
    (check err msg w).stdout = w.stdout := by
  cases err <;> rfl

/-- C18. For the collection `listByStatus` loads and every status argument, the
tasks it prints are exactly the tasks whose status equals the argument ignoring
letter case, in their collection order; when no task matches, and only then, it
prints the line `No tasks found with status` followed by the argument. -/
theorem listByStatus_prints_matching_tasks (json : JSON) (caseTable : Char → Char)
    (status : String) (w : World) :
    (∀ t, t ∈ (loadTasks json FILENAME w).1.taskList.Tasks.filter (statusMatches caseTable status) ↔
      t ∈ (loadTasks json FILENAME w).1.taskList.Tasks ∧
        ToLower caseTable t.Status = ToLower caseTable status) ∧
    ((loadTasks json FILENAME w).1.taskList.Tasks.filter (statusMatches caseTable status) ≠ [] →
      (listByStatus json caseTable status w).stdout
        = w.stdout ++
          ((loadTasks json FILENAME w).1.taskList.Tasks.filter (statusMatches caseTable status)).map
            (printedTask json)) ∧
    ((loadTasks json FILENAME w).1.taskList.Tasks.filter (statusMatches caseTable status) = [] →
      (listByStatus json caseTable status w).stdout
        = w.stdout ++ [.text ("No tasks found with status " ++ status)]) := by
  have hloop := listByStatusLoop_spec json caseTable status (loadTasks json FILENAME w).1.taskList.Tasks
    (check (loadTasks json FILENAME w).2 "failed load task" w) false
  rw [check_stdout] at hloop
  refine ⟨fun t => by simp [List.mem_filter, statusMatches], ?_, ?_⟩
  · intro hne
    unfold listByStatus
    simp only
    have hfound : (listByStatusLoop json caseTable status (loadTasks json FILENAME w).1.taskList.Tasks
        (check (loadTasks json FILENAME w).2 "failed load task" w) false).2 = true := by
      rw [hloop.2]
      simpa [List.isEmpty_iff] using hne
    rw [if_pos hfound, hloop.1]
  · intro he
    unfold listByStatus
    simp only
    have hfound : ¬ (listByStatusLoop json caseTable status (loadTasks json FILENAME w).1.taskList.Tasks
        (check (loadTasks json FILENAME w).2 "failed load task" w) false).2 = true := by
      rw [hloop.2, he]
      simp
    rw [if_neg hfound]
    simp [println, hloop.1, he]

/-- Witness of C18: no stored task has the status `done`. -/
theorem listByStatus_prints_matching_tasks_witness :
    (listByStatus exampleJSON id "done" (worldWith taskZeroDocument)).stdout
      = (worldWith taskZeroDocument).stdout ++ [.text ("No tasks found with status " ++ "done")] :=
  (listByStatus_prints_matching_tasks exampleJSON id "done" (worldWith taskZeroDocument)).2.2
    (by decide)

/-! ## The session: a failed load -/

theorem main_add (json : JSON) (caseTable : Char → Char) (now : Time) (prog : String)
    (rest : List String) (w : World) :
    main json caseTable now (prog :: "add" :: rest) w = mainAdd json now rest w := rfl

theorem println_sameFileSystem (s : String) (w : World) : sameFileSystem (println s w) w :=
  ⟨rfl, rfl, rfl⟩

/-- The `add` command, once the file is ensured to exist, persists the loaded
collection with the new task. -/
theorem mainAdd_persists (json : JSON) (now : Time) (d : String) (rest : List String)
    (w w1 : World) (hd : d ≠ "") (hens : ensureFileExists json w = (w1, none)) :
    sameFileSystem (mainAdd json now (d :: rest) w).1
      (saveTasks json FILENAME
        ⟨(createTask now (loadTasks json FILENAME w1).1.taskList d).taskList, false⟩ w1).1 := by
  unfold mainAdd
  simp only [hd, if_false, hens]
  exact sameFileSystem_trans (println_sameFileSystem _ _)
    (sameFileSystem_trans (check_sameFileSystem _ _ _)
      (saveTasks_sameFileSystem json FILENAME _
        (sameFileSystem_trans ⟨rfl, rfl, rfl⟩ (check_sameFileSystem _ _ _))))

theorem loadTasks_missing (json : JSON) (w : World) (h : w.files FILENAME = none) :
    loadTasks json FILENAME w
      = (⟨⟨[]⟩, true⟩, some (.wrapped "error reading file"
          (.os ("open " ++ FILENAME ++ ": no such file or directory")))) := by
  unfold loadTasks osReadFile
  rw [h]

theorem saveTasks_writes (json : JSON) (stored : Stored) (w : World) (data : String)
    (hm : json.MarshalIndent stored = .ok data) (hw : w.readOnly = false) :
    (saveTasks json FILENAME stored w).1.files FILENAME = some data := by
  unfold saveTasks osWriteFile
  rw [hm]
  simp [hw]

set_option maxRecDepth 100000

/-- Counterexample to C11: `task.json` holds the text `x`, which does not
decode, and the command is `add a`. The load fails, the command goes on, and the
file is overwritten with a collection of one task. Likewise `delete 1` without a
`task.json`: the load fails, and the command creates the file with the encoding
of the zero `TaskList`. -/
theorem failed_load_overwrites_file :
    (loadTasks exampleJSON FILENAME (worldWith "x")).2 ≠ none ∧
    (worldWith "x").files FILENAME = some "x" ∧
    (main exampleJSON id newYear2024 ["tasklist", "add", "a"] (worldWith "x")).1.files FILENAME
      = some firstTaskDocument ∧
    (main exampleJSON id newYear2024 ["tasklist", "add", "a"] (worldWith "x")).1.writes
      = [(FILENAME, firstTaskDocument)] ∧
    (loadTasks exampleJSON FILENAME ⟨fun _ => none, false, [], [], []⟩).2 ≠ none ∧
    (main exampleJSON id ⟨9⟩ ["tasklist", "delete", "1"]
        ⟨fun _ => none, false, [], [], []⟩).1.files FILENAME = some nullDocument := by
  refine ⟨by decide, by decide, by decide, by decide, by decide, by decide⟩

/-- C11, amended. A failed load does not stop a mutating command: the error is
passed to `check` and the command goes on with the value `loadTasks` returned
next to it. `update`, `delete`, `mark-in-progress` and `mark-done` then persist
what the repository operation leaves of that collection, with the slice nil
exactly if it was returned nil; when the file cannot be read that is the zero
`TaskList`, whose `Tasks` is nil, and not the empty collection
`initializeTaskFile` writes. `add`, once `ensureFileExists` has succeeded,
persists that collection with the new task appended. Whenever the encoding
succeeds and the file can be written, the file afterwards holds the encoding of
the saved value. -/
theorem failed_load_does_not_stop_command (json : JSON) (caseTable : Char → Char)
    (now : Time) (prog arg2 arg3 d : String) (rest : List String) (w : World) :
    (w.files FILENAME = none →
      (loadTasks json FILENAME w).2 ≠ none ∧
      sameFileSystem (main json caseTable now (prog :: "update" :: arg2 :: arg3 :: rest) w).1
        (saveTasks json FILENAME ⟨⟨[]⟩, true⟩ w).1 ∧
      sameFileSystem (main json caseTable now (prog :: "delete" :: arg2 :: rest) w).1
        (saveTasks json FILENAME ⟨⟨[]⟩, true⟩ w).1 ∧
      sameFileSystem (main json caseTable now (prog :: "mark-in-progress" :: arg2 :: rest) w).1
        (saveTasks json FILENAME ⟨⟨[]⟩, true⟩ w).1 ∧
      sameFileSystem (main json caseTable now (prog :: "mark-done" :: arg2 :: rest) w).1
        (saveTasks json FILENAME ⟨⟨[]⟩, true⟩ w).1) ∧
    ((loadTasks json FILENAME w).2 ≠ none →
      sameFileSystem (main json caseTable now (prog :: "update" :: arg2 :: arg3 :: rest) w).1
        (saveTasks json FILENAME
          ⟨(updateTask now (loadTasks json FILENAME w).1.taskList (Atoi arg2).1 arg3).1,
            (loadTasks json FILENAME w).1.nilTasks⟩ w).1 ∧
      sameFileSystem (main json caseTable now (prog :: "delete" :: arg2 :: rest) w).1
        (saveTasks json FILENAME
          ⟨(deleteTask (loadTasks json FILENAME w).1.taskList (Atoi arg2).1).1,
            (loadTasks json FILENAME w).1.nilTasks⟩ w).1 ∧
      sameFileSystem (main json caseTable now (prog :: "mark-in-progress" :: arg2 :: rest) w).1
        (saveTasks json FILENAME
          ⟨(updateTaskProgres caseTable now (loadTasks json FILENAME w).1.taskList
              (Atoi arg2).1 "mark-in-progress").1,
            (loadTasks json FILENAME w).1.nilTasks⟩ w).1 ∧
      sameFileSystem (main json caseTable now (prog :: "mark-done" :: arg2 :: rest) w).1
        (saveTasks json FILENAME
          ⟨(updateTaskProgres caseTable now (loadTasks json FILENAME w).1.taskList
              (Atoi arg2).1 "mark-done").1,
            (loadTasks json FILENAME w).1.nilTasks⟩ w).1) ∧
    (d ≠ "" → ∀ w1, ensureFileExists json w = (w1, none) →
      (loadTasks json FILENAME w1).2 ≠ none →
      sameFileSystem (main json caseTable now (prog :: "add" :: d :: rest) w).1
        (saveTasks json FILENAME
          ⟨(createTask now (loadTasks json FILENAME w1).1.taskList d).taskList, false⟩ w1).1) ∧
    (∀ (stored : Stored) (w1 : World) (data : String),
      json.MarshalIndent stored = .ok data → w1.readOnly = false →
      (saveTasks json FILENAME stored w1).1.files FILENAME = some data) := by
  have hall := And.intro (mainUpdate_persists json now arg2 arg3 rest w)
    (And.intro (mainDelete_persists json arg2 rest w)
      (And.intro (mainMark_persists json caseTable now "mark-in-progress" arg2 rest w)
        (mainMark_persists json caseTable now "mark-done" arg2 rest w)))
  rw [← main_update json caseTable now prog, ← main_delete json caseTable now prog,
    ← main_mark_in_progress json caseTable now prog,
    ← main_mark_done json caseTable now prog] at hall
  refine ⟨?_, fun _ => hall, ?_, ?_⟩
  · intro hmiss
    have hload := loadTasks_missing json w hmiss
    have hnone : ∀ t ∈ (⟨[]⟩ : TaskList).Tasks, t.ID ≠ (Atoi arg2).1 := by simp
    rw [hload] at hall
    simp only at hall
    rw [updateTask_absent now ⟨[]⟩ _ arg3 hnone, deleteTask_absent ⟨[]⟩ _ hnone,
      updateTaskProgres_absent caseTable now ⟨[]⟩ _ "mark-in-progress" hnone,
      updateTaskProgres_absent caseTable now ⟨[]⟩ _ "mark-done" hnone] at hall
    refine ⟨?_, hall⟩
    rw [hload]
    simp
  · intro hd w1 hens _
    rw [main_add]
    exact mainAdd_persists json now d rest w w1 hd hens
  · intro stored w1 data hm hw
    exact saveTasks_writes json stored w1 data hm hw

/-- Witness of C11 (amended): `delete 1` when `task.json` does not exist saves
the zero `TaskList`. -/
theorem failed_load_does_not_stop_command_witness :
    sameFileSystem
      (main exampleJSON id ⟨9⟩ ("tasklist" :: "delete" :: "1" :: [])
        ⟨fun _ => none, false, [], [], []⟩).1
      (saveTasks exampleJSON FILENAME ⟨⟨[]⟩, true⟩ ⟨fun _ => none, false, [], [], []⟩).1 :=
  ((failed_load_does_not_stop_command exampleJSON id ⟨9⟩ "tasklist" "1" "" "a" []
    ⟨fun _ => none, false, [], [], []⟩).1 rfl).2.2.1

/-! ## The serialized form of a never-mutated task -/

/-- C17. The object `encoding/json` writes for a task has the five keys `id`,
`description`, `status`, `createdAt` and `updatedAt`, whatever the task: the
`omitempty` option of `updatedAt` has no effect on a field of the struct type
`time.Time`, so that a never-mutated task is serialized with its zero
`UpdatedAt` rather than without an update timestamp. -/
theorem zero_UpdatedAt_is_serialized (id : Int) (description status : String)
    (createdAt : Time) :
    marshalledKeys ⟨id, description, status, createdAt, Time.zero⟩
      = ["id", "description", "status", "createdAt", "updatedAt"] ∧
    (⟨"updatedAt", true, .time Time.zero⟩ : Field)
      ∈ marshalledFields ⟨id, description, status, createdAt, Time.zero⟩ := by
  constructor
  · rfl
  · simp [marshalledFields, Task.fields, isEmptyValue]

end TaskTracker
